import Mathlib

/-!
# CameraImage publisher / subscriber: LFSR payload, verification, pacing, transit statistics

Shallow embedding of
* `ExampleCode/src/CameraImage/CameraImageData_publisher.cxx`
* `ExampleCode/src/CameraImage/CameraImageData_subscriber.cxx`

Conventions of the embedding.

* `uint32_t` values are natural numbers; the one place where the source relies on
  wrap-around (unary minus on an unsigned value, the post-increment of the counters) is
  written with an explicit `% 2 ^ 32`.
* The payload `data[MAX_IMAGE_SIZE]` is only ever accessed through `uint32_t *`, four bytes
  at a time, so it is modelled as a word-addressed memory `Nat → Nat`: word `k` is the
  `uint32_t` at byte offset `4 * k`.
* `MAX_IMAGE_SIZE` comes from the IDL-generated header, which is not part of the two
  source files; it is a parameter `M` everywhere.
* `double` arithmetic is IEEE-754 binary64 with rounding to nearest, ties to even, every
  operation rounded on its own; a `double` is a dyadic number `m * 2 ^ e`.  The transit
  statistics have a second reading in exact rational arithmetic, for the statements that
  are made in exact arithmetic.
* The DDS middleware is external.  Its clock is a virtual clock counting whole
  nanoseconds, `write` return codes and the time spent in each part of a cycle are
  supplied by an environment record.
-/

namespace CameraImage

/-! ## LFSR -/

/-- The seed macro `LFSR_SEED`, defined as `(0x55555555)` (publisher line 49). -/
def LFSR_SEED : Nat := 0x55555555

/-- The register update `lfsr = (lfsr >> 1) ^ (-(lfsr & 1u) & 0xD0000001u);`
(publisher lines 132 and 294, subscriber line 184).  The unary minus is unsigned, hence
taken modulo `2 ^ 32`. -/
def lfsrStep (lfsr : Nat) : Nat :=
  (lfsr >>> 1) ^^^ (((2 ^ 32 - (lfsr &&& 1)) % 2 ^ 32) &&& 0xD0000001)

/-- The update as the specification words it: shift right by one; when the bit shifted out
was 1, exclusive-or with the tap constant, otherwise leave the shifted value unchanged. -/
def lfsrNextSpec (x : Nat) : Nat :=
  if x % 2 = 1 then (x >>> 1) ^^^ 0xD0000001 else x >>> 1

/-! ## Frame fill (publisher) -/

/-- Body of the fill loop (publisher lines 292-294) at byte index `i`:
`*lfsrVal = lfsr; lfsr = step lfsr;` with `lfsrVal = (uint32_t *)&data[i]`.
Returns the new memory and the new register. -/
def fillBody (i lfsr : Nat) (data : Nat → Nat) : (Nat → Nat) × Nat :=
  (Function.update data (i / 4) lfsr, lfsrStep lfsr)

/-- The loop `for (int i = 0; i < MAX_IMAGE_SIZE; i += 4) { ... }` (publisher lines
291-295), started at byte index `i`.  Returns the memory and the register at loop exit. -/
def fillLoop (M : Nat) (i lfsr : Nat) (data : Nat → Nat) : (Nat → Nat) × Nat :=
  if i < M then
    fillLoop M (i + 4) (fillBody i lfsr data).2 (fillBody i lfsr data).1
  else (data, lfsr)
termination_by M - i
decreasing_by omega

/-! ## Frame verification (subscriber) -/

/-- What one run of `checkLfsrDataInArray` did: either the scan ran to the end, or it
returned at the first mismatch.  `pos` is the word offset of the pointer `lfsrArray` at the
time of the early return, `actual` is `*lfsrArray` and `expected` is `lfsr`, the two values
handed to `fprintf` (subscriber line 186). -/
inductive CheckOutcome where
  | pass : CheckOutcome
  | mismatch (pos actual expected : Nat) : CheckOutcome
  deriving DecidableEq, Repr

/-- The scan loop `for (int j = 4; j < MAX_IMAGE_SIZE; j += 4) { lfsrArray++; ... }`
(subscriber lines 182-189); `p` is the current word offset of `lfsrArray`. -/
def checkScan (M : Nat) (data : Nat → Nat) (j p lfsr : Nat) : CheckOutcome :=
  if j < M then
    if lfsrStep lfsr ≠ data (p + 1) then
      CheckOutcome.mismatch (p + 1) (data (p + 1)) (lfsrStep lfsr)
    else checkScan M data (j + 4) (p + 1) (lfsrStep lfsr)
  else CheckOutcome.pass
termination_by M - j
decreasing_by omega

/-- The scan of `checkLfsrDataInArray` together with what it reports:
`uint32_t lfsr = *lfsrArray;` then the loop. -/
def checkLfsrTrace (M : Nat) (data : Nat → Nat) : CheckOutcome :=
  checkScan M data 4 0 (data 0)

/-- The function `bool checkLfsrDataInArray(uint32_t *lfsrArray)` (subscriber lines
179-191): `true` when the scan finds no mismatch. -/
def checkLfsrDataInArray (M : Nat) (data : Nat → Nat) : Bool :=
  match checkLfsrTrace M data with
  | CheckOutcome.pass => true
  | CheckOutcome.mismatch _ _ _ => false

/-! ## Time -/

/-- The type `DDS_Time_t`: seconds and nanoseconds of a time stamp. -/
structure DDS_Time_t where
  sec : Int
  nanosec : Nat
  deriving DecidableEq, Repr

/-- The type `DDS_Duration_t`: seconds (a signed field) and nanoseconds (an unsigned 32-bit
field, as in `DDS_Time_t`). -/
structure DDS_Duration_t where
  sec : Int
  nanosec : Nat
  deriving DecidableEq, Repr

/-- The expression `t.sec + 1e-9*t.nanosec` of the subscriber (lines 113-114) read in exact
arithmetic, for the statements about the statistics that are made in exact arithmetic. -/
def timeToSeconds (t : DDS_Time_t) : ℚ := (t.sec : ℚ) + 1e-9 * (t.nanosec : ℚ)

/-- The call `participant->get_current_time(t)` on the virtual clock, which counts nanoseconds. -/
def get_current_time (now : Nat) : DDS_Time_t :=
  { sec := ((now / 1000000000 : Nat) : Int), nanosec := now % 1000000000 }

/-! ## Double-precision arithmetic -/

/-- A finite `double`: the number `m * 2 ^ e`.  Infinities, NaN and the limits of the
exponent range are not modelled; they do not arise for the magnitudes of time stamps. -/
structure Dbl where
  m : Int
  e : Int
  deriving DecidableEq, Repr

/-- The rational number a `double` stands for. -/
def Dbl.val (x : Dbl) : ℚ := (x.m : ℚ) * (2 : ℚ) ^ x.e

/-- Number of binary digits of `n`, with `fuel` an upper bound on it. -/
def bitLenAux : Nat → Nat → Nat
  | 0, _ => 0
  | fuel + 1, n => if n = 0 then 0 else bitLenAux fuel (n / 2) + 1

/-- Number of binary digits of `n`. -/
def bitLen (n : Nat) : Nat := bitLenAux n n

/-- Rounding of `m * 2 ^ e` to a significand of 53 bits, to nearest, ties to even: the
rounding IEEE-754 binary64 applies to the exact result of every operation. -/
def Dbl.fl (x : Dbl) : Dbl :=
  let n := x.m.natAbs
  let bits := bitLen n
  if bits ≤ 53 then x
  else
    let shift := bits - 53
    let q := n / 2 ^ shift
    let rem := n % 2 ^ shift
    let half := 2 ^ (shift - 1)
    let q1 := if rem < half then q else if half < rem then q + 1
      else if q % 2 = 0 then q else q + 1
    { m := if x.m < 0 then -(q1 : Int) else (q1 : Int), e := x.e + (shift : Int) }

/-- Conversion of an integer to `double`. -/
def Dbl.ofInt (z : Int) : Dbl := Dbl.fl { m := z, e := 0 }

/-- Unary minus. -/
def Dbl.neg (x : Dbl) : Dbl := { m := -x.m, e := x.e }

/-- The exact sum of two doubles, before rounding. -/
def Dbl.exactAdd (x y : Dbl) : Dbl :=
  { m := x.m * 2 ^ (x.e - min x.e y.e).toNat + y.m * 2 ^ (y.e - min x.e y.e).toNat,
    e := min x.e y.e }

/-- The `double` sum `x + y`. -/
def Dbl.add (x y : Dbl) : Dbl := Dbl.fl (Dbl.exactAdd x y)

/-- The `double` difference `x - y`. -/
def Dbl.sub (x y : Dbl) : Dbl := Dbl.fl (Dbl.exactAdd x (Dbl.neg y))

/-- The `double` product `x * y`. -/
def Dbl.mul (x y : Dbl) : Dbl := Dbl.fl { m := x.m * y.m, e := x.e + y.e }

/-- The `double` quotient `x / y` for `y` nonzero: the quotient is computed with three
extra bits and a sticky bit, then rounded.  Division by zero is not modelled. -/
def Dbl.div (x y : Dbl) : Dbl :=
  if y.m = 0 then { m := 0, e := 0 }
  else
    let k := 56 + bitLen y.m.natAbs
    let N := x.m.natAbs * 2 ^ k
    let f := N / y.m.natAbs
    let r := N % y.m.natAbs
    let mant : Int := ((2 * f + (if r = 0 then 0 else 1) : Nat) : Int)
    Dbl.fl { m := if (x.m < 0) = (y.m < 0) then mant else -mant,
             e := x.e - y.e - (k : Int) - 1 }

/-- The conversion `(long)x`: truncation toward zero. -/
def Dbl.toLong (x : Dbl) : Int :=
  if 0 ≤ x.e then x.m * 2 ^ x.e.toNat else Int.tdiv x.m (2 ^ (-x.e).toNat)

/-- The comparison `x == y`. -/
def Dbl.eqb (x y : Dbl) : Bool := decide ((Dbl.exactAdd x (Dbl.neg y)).m = 0)

/-- The comparison `x < y`. -/
def Dbl.ltb (x y : Dbl) : Bool := decide ((Dbl.exactAdd x (Dbl.neg y)).m < 0)

/-- The literal `1e-9`: the `double` nearest to `10 ^ (-9)`, `0x1.12e0be826d695p-30`. -/
def c1em9 : Dbl := { m := 4835703278458517, e := -82 }

/-- The literal `1e9`. -/
def c1e9 : Dbl := { m := 1000000000, e := 0 }

/-- The expression `t.sec + 1e-9*t.nanosec` (publisher lines 247, 323; subscriber lines
113-114) as the code computes it, in `double`. -/
def timeToDouble (t : DDS_Time_t) : Dbl :=
  Dbl.add (Dbl.ofInt t.sec) (Dbl.mul c1em9 (Dbl.ofInt t.nanosec))

/-- The expression `send_period.sec + 1e-9*send_period.nanosec` (publisher line 248). -/
def durationToSeconds (d : DDS_Duration_t) : Dbl :=
  Dbl.add (Dbl.ofInt d.sec) (Dbl.mul c1em9 (Dbl.ofInt d.nanosec))

/-- Lines 323-325 of the publisher: the `double time_sleep_s` of cycle `count`. -/
def timeSleepS (time_begin_s send_period_s : Dbl) (count : Nat) (time_now : DDS_Time_t) : Dbl :=
  let time_now_s := timeToDouble time_now
  let time_next_s :=
    Dbl.add time_begin_s (Dbl.mul send_period_s (Dbl.ofInt ((count : Int) + 1)))
  Dbl.sub time_next_s time_now_s

/-- Lines 327-329 of the publisher: the `DDS_Duration_t time_sleep` built from
`time_sleep_s`; the `long` assigned to the unsigned field `nanosec` is reduced modulo
`2 ^ 32`. -/
def timeSleep (time_sleep_s : Dbl) : DDS_Duration_t :=
  let sec := Dbl.toLong time_sleep_s
  { sec := sec,
    nanosec :=
      (Dbl.toLong (Dbl.mul c1e9 (Dbl.sub time_sleep_s (Dbl.ofInt sec))) % 2 ^ 32).toNat }

/-- Effect of `NDDSUtility::sleep(d)` on the virtual clock: time advances by exactly the
duration `d.sec` seconds plus `d.nanosec` nanoseconds; a duration below zero lets no time
pass. -/
def sleepAdvance (d : DDS_Duration_t) : Nat :=
  (d.sec * 1000000000 + (d.nanosec : Int)).toNat

/-! ## Publisher main loop (default build: neither flat data nor zero copy) -/

/-- The record type `CameraImage_CameraImageData` (fields used by the two programs). -/
structure CameraImageData where
  id : Nat
  seqnum : Nat
  data : Nat → Nat
  sec_ : Int
  nanosec_ : Nat

/-- The external world as seen by one run of the publisher: the return code of the `write`
call of each cycle (`0` is `DDS_RETCODE_OK`), and the virtual time, in nanoseconds, that
the payload fill and the `write`/`printf` part of each cycle take. -/
structure PubEnv where
  writeRet : Nat → Int
  fillDur : Nat → Nat
  writeDur : Nat → Nat

/-- State of the publisher process: the globals `lfsr` and `seqNum`, the sample `instance`
(named `sample` here), the virtual clock, and what the process did to the outside: the
records handed to `write` with the return code of each call, the return codes printed by
the `write error` branch, and the durations handed to `NDDSUtility::sleep`. -/
structure PubState where
  lfsr : Nat
  seqNum : Nat
  sample : CameraImageData
  now : Nat
  written : List (CameraImageData × Int)
  errors : List Int
  sleeps : List DDS_Duration_t

/-- State at the loop entry: `lfsr = LFSR_SEED`, `seqNum = 1` (publisher lines 51-52), the
sample returned by `create_data` and the clock value at `start sending`. -/
def PubState.init (sample0 : CameraImageData) (t0 : Nat) : PubState :=
  { lfsr := LFSR_SEED, seqNum := 1, sample := sample0, now := t0,
    written := [], errors := [], sleeps := [] }

/-- One iteration of the main loop (publisher lines 289-332), cycle number `count`. -/
def publishCycle (M : Nat) (env : PubEnv) (time_begin_s send_period_s : Dbl) (count : Nat)
    (st : PubState) : PubState :=
  -- lines 291-295
  let filled := fillLoop M 0 st.lfsr st.sample.data
  -- line 296: instance->seqnum = seqNum++;
  let seqNum1 := (st.seqNum + 1) % 2 ^ 32
  -- lines 302-305
  let now1 := st.now + env.fillDur count
  let instance_timestamp := get_current_time now1
  let sample1 : CameraImageData :=
    { id := st.sample.id, seqnum := st.seqNum, data := filled.1,
      sec_ := instance_timestamp.sec, nanosec_ := instance_timestamp.nanosec }
  -- lines 309-312
  let retcode := env.writeRet count
  let errors1 := if retcode ≠ 0 then st.errors ++ [retcode] else st.errors
  -- lines 321-332
  let now2 := now1 + env.writeDur count
  let time_now := get_current_time now2
  let time_sleep := timeSleep (timeSleepS time_begin_s send_period_s count time_now)
  { lfsr := filled.2, seqNum := seqNum1, sample := sample1,
    now := now2 + sleepAdvance time_sleep,
    written := st.written ++ [(sample1, retcode)],
    errors := errors1,
    sleeps := st.sleeps ++ [time_sleep] }

/-- The loop `for (count=0; (sample_count == 0) || (count < sample_count); ++count)`
(publisher line 251), run for at most `fuel` iterations from cycle number `count`.  The
Boolean tells whether the loop condition became false, that is whether the loop was left. -/
def mainLoop (M : Nat) (env : PubEnv) (time_begin_s send_period_s : Dbl) (sample_count : Int) :
    Nat → Nat → PubState → PubState × Bool
  | 0, count, st => (st, !(decide (sample_count = 0 ∨ (count : Int) < sample_count)))
  | fuel + 1, count, st =>
    if sample_count = 0 ∨ (count : Int) < sample_count then
      mainLoop M env time_begin_s send_period_s sample_count fuel (count + 1)
        (publishCycle M env time_begin_s send_period_s count st)
    else (st, true)

/-- Lines 245-251 of the publisher: latch `time_begin`, convert it and `send_period` to
seconds, and run the main loop from `count = 0`. -/
def publisherLoop (M : Nat) (env : PubEnv) (send_period : DDS_Duration_t) (sample_count : Int)
    (fuel : Nat) (sample0 : CameraImageData) (t0 : Nat) : PubState × Bool :=
  let time_begin := get_current_time t0
  let time_begin_s := timeToDouble time_begin
  let send_period_s := durationToSeconds send_period
  mainLoop M env time_begin_s send_period_s sample_count fuel 0 (PubState.init sample0 t0)

/-- The default `DDS_Duration_t send_period = {4,0};` (publisher line 159). -/
def defaultSendPeriod : DDS_Duration_t := { sec := 4, nanosec := 0 }

/-- An environment in which nothing but `sleep` takes time and every `write` succeeds. -/
def idleEnv : PubEnv := { writeRet := fun _ => 0, fillDur := fun _ => 0, writeDur := fun _ => 0 }

/-- A sample whose fields are all zero. -/
def zeroSample : CameraImageData :=
  { id := 0, seqnum := 0, data := fun _ => 0, sec_ := 0, nanosec_ := 0 }


/-- The state after `n` iterations of the main loop started at cycle number `count0` in
state `st` (the loop body iterated, without the loop test). -/
def cyclesFrom (M : Nat) (env : PubEnv) (time_begin_s send_period_s : Dbl) (count0 : Nat)
    (st : PubState) : Nat → PubState
  | 0 => st
  | n + 1 =>
    publishCycle M env time_begin_s send_period_s (count0 + n)
      (cyclesFrom M env time_begin_s send_period_s count0 st n)

/-- Number of 32-bit words the fill loop writes into one frame. -/
def wordsPerFrame (M : Nat) : Nat := (M + 3) / 4

/-- An environment whose first cycle spends five seconds in `write`, every `write`
succeeding. -/
def slowEnv : PubEnv :=
  { writeRet := fun _ => 0, fillDur := fun _ => 0,
    writeDur := fun c => if c = 0 then 5000000000 else 0 }

/-! ## Transit-time statistics (subscriber), in exact arithmetic -/

/-- The function-local `static` variables of `calcAndPrintTransitTime` (subscriber lines
108-111 and 115). -/
structure TransitStats where
  tMin : ℚ
  tMax : ℚ
  tSum : ℚ
  tSampleCount : Nat
  tStart_s : ℚ

/-- The initial values of the `static` variables: `tMin = 1000`, `tMax = 0`, `tSum = 0`,
`tSampleCount = 0`, `tStart_s = 0`. -/
def TransitStats.init : TransitStats :=
  { tMin := 1000, tMax := 0, tSum := 0, tSampleCount := 0, tStart_s := 0 }

/-- The values handed to `fprintf` by `calcAndPrintTransitTime` (subscriber lines 126-132),
in the order of the format string.  The bandwidth figure is kept as its two ingredients: the
`uint32_t` product `tSampleCount*MAX_IMAGE_SIZE` and the divisor `tReceive_s-tStart_s`. -/
structure TransitReport where
  t_sec : Int
  t_msec : Nat
  recv : Nat
  lat : ℚ
  tMin : ℚ
  tMax : ℚ
  tAvg : ℚ
  bwBytes : Nat
  bwDivisor : ℚ

/-- The function `calcAndPrintTransitTime(tSend, tReceive)` (subscriber lines 106-134)
with its `double` operations read as exact rational operations: the updated `static`
variables and the printed values. -/
def calcAndPrintTransitTime (M : Nat) (st : TransitStats) (tSend tReceive : DDS_Time_t) :
    TransitStats × TransitReport :=
  let tSend_s := timeToSeconds tSend
  let tReceive_s := timeToSeconds tReceive
  let tStart_s := if st.tStart_s = 0 then tReceive_s else st.tStart_s
  let tDelta := tReceive_s - tSend_s
  let tMin := if tDelta < st.tMin then tDelta else st.tMin
  let tMax := if tDelta > st.tMax then tDelta else st.tMax
  let tSum := st.tSum + tDelta
  let tSampleCount : Nat := (st.tSampleCount + 1) % 2 ^ 32
  let tAvg := tSum / (tSampleCount : ℚ)
  ({ tMin := tMin, tMax := tMax, tSum := tSum, tSampleCount := tSampleCount,
     tStart_s := tStart_s },
   { t_sec := Int.tmod tReceive.sec 10000, t_msec := tReceive.nanosec / 1000000,
     recv := tSampleCount, lat := tDelta, tMin := tMin, tMax := tMax, tAvg := tAvg,
     bwBytes := (tSampleCount * M) % 2 ^ 32, bwDivisor := tReceive_s - tStart_s })

/-- A sequence of calls of `calcAndPrintTransitTime`, one per received sample (pairs of
send and receive time stamp), from the state `st`: the final state and the reports printed,
in order. -/
def calcAll (M : Nat) (st : TransitStats) (samples : List (DDS_Time_t × DDS_Time_t)) :
    TransitStats × List TransitReport :=
  samples.foldl
    (fun acc p => ((calcAndPrintTransitTime M acc.1 p.1 p.2).1,
      acc.2 ++ [(calcAndPrintTransitTime M acc.1 p.1 p.2).2]))
    (st, [])

/-- The transit time `tReceive_s - tSend_s` of a sample, in exact arithmetic. -/
def transitDelta (p : DDS_Time_t × DDS_Time_t) : ℚ := timeToSeconds p.2 - timeToSeconds p.1

/-! ## Transit-time statistics (subscriber), in double-precision arithmetic -/

/-- The function-local `static` variables of `calcAndPrintTransitTime` (subscriber lines
108-111 and 115), as doubles. -/
structure TransitStatsIEEE where
  tMin : Dbl
  tMax : Dbl
  tSum : Dbl
  tSampleCount : Nat
  tStart_s : Dbl

/-- The initial values of the `static` variables: `tMin = 1000`, `tMax = 0`, `tSum = 0`,
`tSampleCount = 0`, `tStart_s = 0`. -/
def TransitStatsIEEE.init : TransitStatsIEEE :=
  { tMin := Dbl.ofInt 1000, tMax := Dbl.ofInt 0, tSum := Dbl.ofInt 0, tSampleCount := 0,
    tStart_s := Dbl.ofInt 0 }

/-- The values handed to `fprintf` by `calcAndPrintTransitTime` (subscriber lines 126-132),
as doubles.  The bandwidth figure is kept as its two ingredients: the `uint32_t` product
`tSampleCount*MAX_IMAGE_SIZE` and the divisor `tReceive_s-tStart_s`. -/
structure TransitReportIEEE where
  t_sec : Int
  t_msec : Nat
  recv : Nat
  lat : Dbl
  tMin : Dbl
  tMax : Dbl
  tAvg : Dbl
  bwBytes : Nat
  bwDivisor : Dbl

/-- The function `calcAndPrintTransitTime(tSend, tReceive)` (subscriber lines 106-134) as
the code computes it, in `double`: the updated `static` variables and the printed values. -/
def calcAndPrintTransitTimeIEEE (M : Nat) (st : TransitStatsIEEE) (tSend tReceive : DDS_Time_t) :
    TransitStatsIEEE × TransitReportIEEE :=
  let tSend_s := timeToDouble tSend
  let tReceive_s := timeToDouble tReceive
  let tStart_s := if Dbl.eqb st.tStart_s (Dbl.ofInt 0) then tReceive_s else st.tStart_s
  let tDelta := Dbl.sub tReceive_s tSend_s
  let tMin := if Dbl.ltb tDelta st.tMin then tDelta else st.tMin
  let tMax := if Dbl.ltb st.tMax tDelta then tDelta else st.tMax
  let tSum := Dbl.add st.tSum tDelta
  let tSampleCount : Nat := (st.tSampleCount + 1) % 2 ^ 32
  let tAvg := Dbl.div tSum (Dbl.ofInt tSampleCount)
  ({ tMin := tMin, tMax := tMax, tSum := tSum, tSampleCount := tSampleCount,
     tStart_s := tStart_s },
   { t_sec := Int.tmod tReceive.sec 10000, t_msec := tReceive.nanosec / 1000000,
     recv := tSampleCount, lat := tDelta, tMin := tMin, tMax := tMax, tAvg := tAvg,
     bwBytes := (tSampleCount * M) % 2 ^ 32, bwDivisor := Dbl.sub tReceive_s tStart_s })

/-- A sequence of calls of `calcAndPrintTransitTime`, one per received sample (pairs of
send and receive time stamp), from the state `st`, in `double`: the final state and the
reports printed, in order. -/
def calcAllIEEE (M : Nat) (st : TransitStatsIEEE) (samples : List (DDS_Time_t × DDS_Time_t)) :
    TransitStatsIEEE × List TransitReportIEEE :=
  samples.foldl
    (fun acc p => ((calcAndPrintTransitTimeIEEE M acc.1 p.1 p.2).1,
      acc.2 ++ [(calcAndPrintTransitTimeIEEE M acc.1 p.1 p.2).2]))
    (st, [])

/-! ## Start-up and shutdown of the publisher -/

/-- The return codes of the two DDS calls made by `publisher_shutdown` (`0` is
`DDS_RETCODE_OK`). -/
structure ShutdownEnv where
  deleteContainedRet : Int
  deleteParticipantRet : Int

/-- The function `publisher_shutdown(participant)` (publisher lines 78-112); `participant`
tells whether the pointer is non-null.  Returns `status`. -/
def publisher_shutdown (participant : Bool) (e : ShutdownEnv) : Int :=
  if participant then
    let status : Int := if e.deleteContainedRet ≠ 0 then -1 else 0
    if e.deleteParticipantRet ≠ 0 then -1 else status
  else 0

/-- What the property file and the DDS calls made before and after the main loop give
back to `publisher_main`. -/
structure PubSetup where
  pubInterval : Int
  ddsIdProp : Int
  topicName : String
  qosLibrary : String
  qosProfile : String
  registerTypeRet : Int
  participantCreated : Bool
  writerFound : Bool
  createData : Option CameraImageData
  deleteDataRet : Int
  shutdown : ShutdownEnv

/-- Lines 159-168 of the publisher: `send_period` is `{4,0}` unless the property
`config.pubInterval` (milliseconds) is nonzero. -/
def sendPeriodOf (time : Int) : DDS_Duration_t :=
  if time ≠ 0 then
    { sec := Int.tdiv time 1000, nanosec := ((Int.tmod time 1000 * 1000 * 1000) % 2 ^ 32).toNat }
  else { sec := 4, nanosec := 0 }

/-- Lines 171-172 of the publisher: `ddsId = (uint32_t) ...; if(ddsId == 0) ddsId = 404;`. -/
def ddsIdOf (prop : Int) : Nat :=
  if (prop % 2 ^ 32).toNat = 0 then 404 else (prop % 2 ^ 32).toNat

/-- The function `publisher_main(sample_count)` (publisher lines 151-355), default build.
The first component is the value returned, `none` when the main loop is still running
after `fuel` iterations; the second is the state of the loop, `none` when the loop was
never entered. -/
def publisher_main (M : Nat) (setup : PubSetup) (env : PubEnv) (sample_count : Int)
    (fuel : Nat) (t0 : Nat) : Option Int × Option PubState :=
  let send_period := sendPeriodOf setup.pubInterval
  let ddsId := ddsIdOf setup.ddsIdProp
  if setup.topicName = "" then (some (-1), none)
  else if setup.qosLibrary = "" then (some (-1), none)
  else if setup.qosProfile = "" then (some (-1), none)
  else if setup.registerTypeRet ≠ 0 then (some (-1), none)
  else if setup.participantCreated = false then (some (-1), none)
  else if setup.writerFound = false then (some (-1), none)
  else
    match setup.createData with
    | none => (some (-1), none)
    | some created =>
      let sample0 : CameraImageData := { created with id := ddsId }
      let run := publisherLoop M env send_period sample_count fuel sample0 t0
      if run.2 then (some (publisher_shutdown true setup.shutdown), some run.1)
      else (none, some run.1)

/-- A start-up in which every step succeeds, with the default period. -/
def okSetup : PubSetup :=
  { pubInterval := 0, ddsIdProp := 7, topicName := "camera", qosLibrary := "lib",
    qosProfile := "profile", registerTypeRet := 0, participantCreated := true,
    writerFound := true, createData := some zeroSample, deleteDataRet := 0,
    shutdown := { deleteContainedRet := 0, deleteParticipantRet := 0 } }

/-- An environment in which every `write` fails and nothing but `sleep` takes time. -/
def failingEnv : PubEnv :=
  { writeRet := fun _ => 1, fillDur := fun _ => 0, writeDur := fun _ => 0 }

/-- An environment whose cycles take between one and three seconds of work. -/
def busyEnv : PubEnv :=
  { writeRet := fun _ => 0, fillDur := fun c => 1000000000 * (c % 2),
    writeDur := fun c => 1000000000 + 500000000 * (c % 3) }

/-- An environment whose cycles spend 1 000 999 975 ns in `write`: 25 ns less than a period
of 1001 ms. -/
def lateEnv : PubEnv :=
  { writeRet := fun _ => 0, fillDur := fun _ => 0, writeDur := fun _ => 1000999975 }

/-! ## Linear algebra over GF(2) for the period of the LFSR -/

/-- The image of `x` under the linear map over GF(2) whose values on the basis vectors
`1, 2, 4, ...` are listed in the table: the exclusive-or of the entries selected by the
bits of `x`. -/
def applyTable : List Nat → Nat → Nat
  | [], _ => 0
  | c :: cs, x => (if x % 2 = 1 then c else 0) ^^^ applyTable cs (x / 2)

/-- The table of the values of `f` on the first `n` basis vectors `1, 2, 4, ...`. -/
def tableOf (f : Nat → Nat) : Nat → List Nat
  | 0 => []
  | n + 1 => f 1 :: tableOf (fun y => f (2 * y)) n

/-- The table of the square of the map given by a table. -/
def sqTable (T : List Nat) : List Nat := T.map (applyTable T)

/-- Square-and-multiply: with `T` the table of a map `g`, the image of `v` under `g`
iterated `n` times, for `n` of at most `b` bits. -/
def powApply : Nat → List Nat → Nat → Nat → Nat
  | 0, _, _, v => v
  | b + 1, T, n, v =>
    powApply b (sqTable T) (n / 2) (if n % 2 = 1 then applyTable T v else v)

/-- Linearity over GF(2): the map commutes with exclusive-or. -/
def IsXorLinear (f : Nat → Nat) : Prop := ∀ x y, f (x ^^^ y) = f x ^^^ f y

/-- The number of nonzero 32-bit states. -/
def lfsrPeriod : Nat := 4294967295

/-! ## Facts about the LFSR step -/

theorem lfsrStep_odd (x : Nat) (h : x % 2 = 1) : lfsrStep x = (x >>> 1) ^^^ 0xD0000001 := by
  unfold lfsrStep
  rw [Nat.and_one_is_mod, h]
  rfl

theorem lfsrStep_even (x : Nat) (h : x % 2 = 0) : lfsrStep x = x >>> 1 := by
  unfold lfsrStep
  rw [Nat.and_one_is_mod, h]
  simp

theorem lfsrStep_eq_spec (x : Nat) : lfsrStep x = lfsrNextSpec x := by
  unfold lfsrNextSpec
  rcases Nat.mod_two_eq_zero_or_one x with h | h
  · rw [lfsrStep_even x h, if_neg (by omega)]
  · rw [lfsrStep_odd x h, if_pos h]

theorem lfsrStep_lt (x : Nat) (hx : x < 2 ^ 32) : lfsrStep x < 2 ^ 32 := by
  have h1 : x >>> 1 < 2 ^ 32 := by
    rw [Nat.shiftRight_eq_div_pow]; omega
  rcases Nat.mod_two_eq_zero_or_one x with h | h
  · rw [lfsrStep_even x h]; exact h1
  · rw [lfsrStep_odd x h]
    exact Nat.xor_lt_two_pow h1 (by norm_num)

theorem lfsrStep_ne_zero (x : Nat) (hx0 : 0 < x) (hx : x < 2 ^ 32) : lfsrStep x ≠ 0 := by
  rcases Nat.mod_two_eq_zero_or_one x with h | h
  · rw [lfsrStep_even x h, Nat.shiftRight_eq_div_pow]; omega
  · rw [lfsrStep_odd x h]
    intro h0
    have h1 := Nat.xor_eq_zero.mp h0
    rw [Nat.shiftRight_eq_div_pow] at h1
    omega

theorem lfsrStep_iterate_lt (x : Nat) (hx : x < 2 ^ 32) (n : Nat) : lfsrStep^[n] x < 2 ^ 32 := by
  induction n with
  | zero => simpa using hx
  | succ n ih =>
    rw [Function.iterate_succ_apply']
    exact lfsrStep_lt _ ih

theorem lfsrStep_iterate_ne_zero (x : Nat) (hx0 : 0 < x) (hx : x < 2 ^ 32) (n : Nat) :
    lfsrStep^[n] x ≠ 0 := by
  induction n with
  | zero => simpa using Nat.pos_iff_ne_zero.mp hx0
  | succ n ih =>
    rw [Function.iterate_succ_apply']
    exact lfsrStep_ne_zero _ (Nat.pos_of_ne_zero ih) (lfsrStep_iterate_lt x hx n)

/-! ## Facts about the fill loop -/

theorem fillLoop_data (M : Nat) (i s : Nat) (data : Nat → Nat) (k : Nat) :
    (fillLoop M i s data).1 k =
      if i / 4 ≤ k ∧ i + 4 * (k - i / 4) < M then lfsrStep^[k - i / 4] s else data k := by
  induction i, s, data using fillLoop.induct M with
  | case1 i s data hi ih =>
    rw [fillLoop, if_pos hi, ih]
    have e : (i + 4) / 4 = i / 4 + 1 := by omega
    rw [e]
    simp only [fillBody]
    rcases Nat.lt_trichotomy k (i / 4) with hk | hk | hk
    · rw [if_neg (by omega), if_neg (by omega), Function.update_noteq (by omega)]
    · subst hk
      rw [if_neg (by omega), if_pos (by omega)]
      simp
    · have hc : (i / 4 + 1 ≤ k ∧ i + 4 + 4 * (k - (i / 4 + 1)) < M) ↔
          (i / 4 ≤ k ∧ i + 4 * (k - i / 4) < M) := by omega
      have e2 : k - i / 4 = (k - (i / 4 + 1)) + 1 := by omega
      by_cases hcond : i / 4 ≤ k ∧ i + 4 * (k - i / 4) < M
      · rw [if_pos (hc.mpr hcond), if_pos hcond, e2, Function.iterate_succ_apply]
      · rw [if_neg (fun h => hcond (hc.mp h)), if_neg hcond,
          Function.update_noteq (by omega)]
  | case2 i s data hi =>
    rw [fillLoop, if_neg hi]
    rw [if_neg (by omega)]

theorem fillLoop_lfsr (M : Nat) (i s : Nat) (data : Nat → Nat) :
    (fillLoop M i s data).2 = lfsrStep^[(M - i + 3) / 4] s := by
  induction i, s, data using fillLoop.induct M with
  | case1 i s data hi ih =>
    rw [fillLoop, if_pos hi, ih]
    have e : (M - i + 3) / 4 = (M - (i + 4) + 3) / 4 + 1 := by omega
    rw [e, Function.iterate_succ_apply]
    rfl
  | case2 i s data hi =>
    rw [fillLoop, if_neg hi]
    have e : (M - i + 3) / 4 = 0 := by omega
    rw [e]
    rfl

/-- Word `k` of a freshly filled buffer. -/
theorem fill_word (M s : Nat) (data : Nat → Nat) (k : Nat) (hk : 4 * k < M) :
    (fillLoop M 0 s data).1 k = lfsrStep^[k] s := by
  rw [fillLoop_data, if_pos (by omega)]
  simp

/-- Consecutive words of a freshly filled buffer are one LFSR step apart. -/
theorem fill_word_succ (M s : Nat) (data : Nat → Nat) (k : Nat) (hk : 4 * (k + 1) < M) :
    (fillLoop M 0 s data).1 (k + 1) = lfsrStep ((fillLoop M 0 s data).1 k) := by
  rw [fill_word M s data (k + 1) hk, fill_word M s data k (by omega),
    Function.iterate_succ_apply']

/-! ## Facts about the verification scan -/

theorem checkScan_pass (M : Nat) (data : Nat → Nat) (j p lfsr : Nat)
    (hl : lfsr = data p)
    (h : ∀ n, j + 4 * n < M → data (p + n + 1) = lfsrStep (data (p + n))) :
    checkScan M data j p lfsr = CheckOutcome.pass := by
  induction j, p, lfsr using checkScan.induct M data with
  | case1 j p lfsr hj hne =>
    exfalso
    apply hne
    have := h 0 (by omega)
    rw [hl]
    simpa using this.symm
  | case2 j p lfsr hj heq ih =>
    rw [checkScan, if_pos hj, if_neg heq]
    apply ih
    · exact not_not.mp heq
    · intro n hn
      have := h (n + 1) (by omega)
      have e : p + (n + 1) = p + 1 + n := by omega
      rw [e] at this
      exact this
  | case3 j p lfsr hj =>
    rw [checkScan, if_neg hj]

theorem checkScan_mismatch (M : Nat) (data : Nat → Nat) (n0 : Nat) :
    ∀ (j p lfsr : Nat), lfsr = data p → j + 4 * n0 < M →
      (∀ n, n < n0 → data (p + n + 1) = lfsrStep (data (p + n))) →
      data (p + n0 + 1) ≠ lfsrStep (data (p + n0)) →
      checkScan M data j p lfsr =
        CheckOutcome.mismatch (p + n0 + 1) (data (p + n0 + 1)) (lfsrStep (data (p + n0))) := by
  induction n0 with
  | zero =>
    intro j p lfsr hl hj _ hne
    rw [checkScan, if_pos (by omega), hl, if_pos (fun h => hne (by simpa using h.symm))]
    rfl
  | succ n0 ih =>
    intro j p lfsr hl hj hok hne
    have h0 := hok 0 (by omega)
    rw [checkScan, if_pos (by omega), hl, if_neg (by simpa using h0.symm)]
    have e : p + (n0 + 1) = p + 1 + n0 := by omega
    rw [e] at hne ⊢
    apply ih (j + 4) (p + 1) _ (by simpa using h0.symm) (by omega) _ hne
    intro n hn
    have := hok (n + 1) (by omega)
    have e2 : p + (n + 1) = p + 1 + n := by omega
    rw [e2] at this
    exact this

theorem xor_two_pow_ne (x b : Nat) : x ^^^ 2 ^ b ≠ x := by
  intro h
  have h1 : x ^^^ (x ^^^ 2 ^ b) = 0 := by rw [h, Nat.xor_self]
  rw [← Nat.xor_assoc, Nat.xor_self, Nat.zero_xor] at h1
  exact absurd h1 (by positivity)

theorem checkLfsrTrace_fill (M s : Nat) (data : Nat → Nat) :
    checkLfsrTrace M (fillLoop M 0 s data).1 = CheckOutcome.pass := by
  unfold checkLfsrTrace
  apply checkScan_pass M _ 4 0 _ rfl
  intro n hn
  have := fill_word_succ M s data n (by omega)
  simpa using this

theorem checkLfsrTrace_mismatch (M : Nat) (data : Nat → Nat) (k : Nat) (hk : 4 * (k + 1) < M)
    (hok : ∀ n, n < k → data (n + 1) = lfsrStep (data n))
    (hne : data (k + 1) ≠ lfsrStep (data k)) :
    checkLfsrTrace M data = CheckOutcome.mismatch (k + 1) (data (k + 1)) (lfsrStep (data k)) := by
  have h := checkScan_mismatch M data k 4 0 (data 0) rfl (by omega)
    (by simpa using hok) (by simpa using hne)
  simpa [checkLfsrTrace] using h

theorem checkLfsrTrace_flip (M s : Nat) (data : Nat → Nat) (k v : Nat) (hk1 : 1 ≤ k)
    (hk : 4 * k < M) (hv : v ≠ (fillLoop M 0 s data).1 k) :
    checkLfsrTrace M (Function.update (fillLoop M 0 s data).1 k v) =
      CheckOutcome.mismatch k v (lfsrStep ((fillLoop M 0 s data).1 (k - 1))) := by
  obtain ⟨n0, rfl⟩ : ∃ n0, k = n0 + 1 := ⟨k - 1, by omega⟩
  have hm := checkLfsrTrace_mismatch M (Function.update (fillLoop M 0 s data).1 (n0 + 1) v) n0
    hk
  rw [Function.update_same, Function.update_noteq (by omega : n0 ≠ n0 + 1)] at hm
  rw [Nat.add_sub_cancel]
  apply hm
  · intro n hn
    rw [Function.update_noteq (by omega), Function.update_noteq (by omega)]
    exact fill_word_succ M s data n (by omega)
  · rw [← fill_word_succ M s data n0 (by omega)]
    exact hv

/-! ## Facts about the publisher main loop -/

theorem cyclesFrom_succ_front (M : Nat) (env : PubEnv) (tb sp : Dbl) (count0 : Nat)
    (st : PubState) (n : Nat) :
    cyclesFrom M env tb sp count0 st (n + 1) =
      cyclesFrom M env tb sp (count0 + 1) (publishCycle M env tb sp count0 st) n := by
  induction n with
  | zero => rfl
  | succ n ih =>
    rw [cyclesFrom, ih]
    have e : count0 + (n + 1) = count0 + 1 + n := by omega
    rw [e]
    rfl

/-- As long as the loop test holds, `fuel` rounds of the loop are `fuel` cycles. -/
theorem mainLoop_eq_cyclesFrom (M : Nat) (env : PubEnv) (tb sp : Dbl) (sample_count : Int)
    (fuel : Nat) : ∀ (count : Nat) (st : PubState),
      (sample_count = 0 ∨ ((count + fuel : Nat) : Int) ≤ sample_count) →
      mainLoop M env tb sp sample_count fuel count st =
        (cyclesFrom M env tb sp count st fuel,
          !(decide (sample_count = 0 ∨ ((count + fuel : Nat) : Int) < sample_count))) := by
  induction fuel with
  | zero =>
    intro count st _
    rfl
  | succ fuel ih =>
    intro count st h
    have hc : sample_count = 0 ∨ (count : Int) < sample_count := by
      rcases h with h | h
      · exact Or.inl h
      · right
        push_cast at h
        omega
    have e : count + (fuel + 1) = count + 1 + fuel := by omega
    rw [mainLoop, if_pos hc, ih (count + 1) _ (by rw [← e]; exact h), cyclesFrom_succ_front, e]

theorem publisherLoop_eq (M : Nat) (env : PubEnv) (send_period : DDS_Duration_t)
    (sample_count : Int) (N : Nat) (sample0 : CameraImageData) (t0 : Nat)
    (h : sample_count = 0 ∨ (N : Int) ≤ sample_count) :
    publisherLoop M env send_period sample_count N sample0 t0 =
      (cyclesFrom M env (timeToDouble (get_current_time t0)) (durationToSeconds send_period) 0
          (PubState.init sample0 t0) N,
        !(decide (sample_count = 0 ∨ (N : Int) < sample_count))) := by
  unfold publisherLoop
  have := mainLoop_eq_cyclesFrom M env (timeToDouble (get_current_time t0))
    (durationToSeconds send_period) sample_count N 0 (PubState.init sample0 t0)
    (by simpa using h)
  simpa using this

theorem cyclesFrom_lfsr (M : Nat) (env : PubEnv) (tb sp : Dbl) (sample0 : CameraImageData)
    (t0 n : Nat) :
    (cyclesFrom M env tb sp 0 (PubState.init sample0 t0) n).lfsr =
      lfsrStep^[n * wordsPerFrame M] LFSR_SEED := by
  induction n with
  | zero => simp [cyclesFrom, PubState.init]
  | succ n ih =>
    simp only [cyclesFrom, publishCycle]
    rw [fillLoop_lfsr, ih, ← Function.iterate_add_apply]
    congr 1
    unfold wordsPerFrame
    rw [Nat.succ_mul]
    omega

theorem cyclesFrom_seqNum (M : Nat) (env : PubEnv) (tb sp : Dbl) (sample0 : CameraImageData)
    (t0 n : Nat) :
    (cyclesFrom M env tb sp 0 (PubState.init sample0 t0) n).seqNum = (1 + n) % 2 ^ 32 := by
  induction n with
  | zero => simp [cyclesFrom, PubState.init]
  | succ n ih =>
    simp only [cyclesFrom, publishCycle]
    rw [ih]
    omega

theorem cyclesFrom_written_length (M : Nat) (env : PubEnv) (tb sp : Dbl)
    (sample0 : CameraImageData) (t0 n : Nat) :
    (cyclesFrom M env tb sp 0 (PubState.init sample0 t0) n).written.length = n := by
  induction n with
  | zero => simp [cyclesFrom, PubState.init]
  | succ n ih =>
    simp only [cyclesFrom, publishCycle]
    rw [List.length_append, ih]
    rfl

theorem cyclesFrom_sleeps_length (M : Nat) (env : PubEnv) (tb sp : Dbl)
    (sample0 : CameraImageData) (t0 n : Nat) :
    (cyclesFrom M env tb sp 0 (PubState.init sample0 t0) n).sleeps.length = n := by
  induction n with
  | zero => simp [cyclesFrom, PubState.init]
  | succ n ih =>
    simp only [cyclesFrom, publishCycle]
    rw [List.length_append, ih]
    rfl

/-- The record handed to `write` in cycle `k`. -/
theorem cyclesFrom_written (M : Nat) (env : PubEnv) (tb sp : Dbl) (sample0 : CameraImageData)
    (t0 n k : Nat) (hk : k < n) :
    ∃ r, (cyclesFrom M env tb sp 0 (PubState.init sample0 t0) n).written[k]? = some r ∧
      r.1.seqnum = (1 + k) % 2 ^ 32 ∧ r.2 = env.writeRet k ∧
      (∀ i, 4 * i < M → r.1.data i = lfsrStep^[k * wordsPerFrame M + i] LFSR_SEED) ∧
      r.1.sec_ = (get_current_time
        ((cyclesFrom M env tb sp 0 (PubState.init sample0 t0) k).now + env.fillDur k)).sec ∧
      r.1.nanosec_ = (get_current_time
        ((cyclesFrom M env tb sp 0 (PubState.init sample0 t0) k).now + env.fillDur k)).nanosec := by
  induction n with
  | zero => omega
  | succ n ih =>
    simp only [cyclesFrom, publishCycle]
    rcases Nat.lt_or_ge k n with hlt | hge
    · obtain ⟨r, hr, h1, h2, h3, h4, h5⟩ := ih hlt
      refine ⟨r, ?_, h1, h2, h3, h4, h5⟩
      rw [List.getElem?_append_left (by rw [cyclesFrom_written_length]; exact hlt)]
      exact hr
    · have hkn : k = n := by omega
      subst hkn
      have hlen := cyclesFrom_written_length M env tb sp sample0 t0 k
      have hget : ∀ (L : List (CameraImageData × Int)) (a : CameraImageData × Int),
          L.length = k → (L ++ [a])[k]? = some a := by
        intro L a h
        subst h
        simp
      refine ⟨_, hget _ _ hlen, ?_, ?_, ?_, ?_, ?_⟩
      · simp only [Nat.zero_add]
        exact cyclesFrom_seqNum M env tb sp sample0 t0 k
      · simp
      rotate_left
      · simp only [Nat.zero_add]
      · simp only [Nat.zero_add]
      · intro i hi
        simp only [Nat.zero_add]
        rw [fill_word _ _ _ _ hi, cyclesFrom_lfsr, ← Function.iterate_add_apply]
        congr 1
        omega

theorem cyclesFrom_seqnums (M : Nat) (env : PubEnv) (tb sp : Dbl) (sample0 : CameraImageData)
    (t0 n : Nat) (hn : n < 2 ^ 32) :
    (cyclesFrom M env tb sp 0 (PubState.init sample0 t0) n).written.map (fun r => r.1.seqnum) =
      List.range' 1 n := by
  induction n with
  | zero => simp [cyclesFrom, PubState.init]
  | succ n ih =>
    simp only [cyclesFrom, publishCycle, List.map_append, List.map_cons, List.map_nil]
    rw [ih (by omega), cyclesFrom_seqNum, List.range'_1_concat]
    congr 2
    omega

/-! ## Facts about double-precision arithmetic -/

theorem bitLenAux_zero (fuel : Nat) : bitLenAux fuel 0 = 0 := by
  cases fuel <;> simp [bitLenAux]

theorem bitLenAux_spec (fuel : Nat) : ∀ n, n ≤ fuel →
    n < 2 ^ bitLenAux fuel n ∧ (n ≠ 0 → 2 ^ (bitLenAux fuel n - 1) ≤ n) := by
  induction fuel with
  | zero =>
    intro n hn
    have : n = 0 := by omega
    subst this
    simp [bitLenAux]
  | succ fuel ih =>
    intro n hn
    by_cases h0 : n = 0
    · subst h0
      simp [bitLenAux]
    · rw [bitLenAux, if_neg h0]
      obtain ⟨h1, h2⟩ := ih (n / 2) (by omega)
      constructor
      · rw [pow_succ]
        omega
      · intro _
        rw [Nat.add_sub_cancel]
        by_cases h3 : n / 2 = 0
        · rw [h3, bitLenAux_zero]
          simp
          omega
        · have h4 := h2 h3
          have h5 : 1 ≤ bitLenAux fuel (n / 2) := by
            by_contra hcon
            have : bitLenAux fuel (n / 2) = 0 := by omega
            rw [this] at h1
            simp at h1
            exact h3 h1
          have h6 : 2 ^ bitLenAux fuel (n / 2) = 2 * 2 ^ (bitLenAux fuel (n / 2) - 1) := by
            conv_lhs => rw [← Nat.sub_add_cancel h5]
            rw [pow_succ]
            ring
          omega

theorem lt_two_pow_bitLen (n : Nat) : n < 2 ^ bitLen n :=
  (bitLenAux_spec n n (le_refl n)).1

theorem two_pow_bitLen_le (n : Nat) (h : n ≠ 0) : 2 ^ (bitLen n - 1) ≤ n :=
  (bitLenAux_spec n n (le_refl n)).2 h

theorem bitLen_le_of_lt (n k : Nat) (h : n < 2 ^ k) : bitLen n ≤ k := by
  by_cases h0 : n = 0
  · subst h0
    simp [bitLen, bitLenAux_zero]
  · have h1 := two_pow_bitLen_le n h0
    have h2 : 2 ^ (bitLen n - 1) < 2 ^ k := lt_of_le_of_lt h1 h
    have h3 := (Nat.pow_lt_pow_iff_right (by decide : 1 < 2)).mp h2
    omega

theorem Dbl.val_eq_zero_iff (x : Dbl) : x.val = 0 ↔ x.m = 0 := by
  unfold Dbl.val
  constructor
  · intro h
    rcases mul_eq_zero.mp h with h | h
    · exact_mod_cast h
    · exact absurd h (zpow_ne_zero _ (by norm_num))
  · intro h
    rw [h]
    simp

theorem Dbl.val_neg (x : Dbl) : (Dbl.neg x).val = -x.val := by
  simp [Dbl.val, Dbl.neg]

theorem Dbl.val_exactAdd (x y : Dbl) : (Dbl.exactAdd x y).val = x.val + y.val := by
  have h2 : (2 : ℚ) ≠ 0 := by norm_num
  have key : ∀ (m a b : Int), b ≤ a →
      ((m * 2 ^ (a - b).toNat : Int) : ℚ) * (2 : ℚ) ^ b = (m : ℚ) * (2 : ℚ) ^ a := by
    intro m a b hab
    have e : a = ((a - b).toNat : Int) + b := by
      rw [Int.toNat_of_nonneg (by omega)]
      ring
    conv_rhs => rw [e, zpow_add₀ h2, zpow_natCast]
    push_cast
    ring
  unfold Dbl.exactAdd Dbl.val
  simp only
  push_cast
  rw [add_mul]
  have k1 := key x.m x.e (min x.e y.e) (min_le_left _ _)
  have k2 := key y.m y.e (min x.e y.e) (min_le_right _ _)
  push_cast at k1 k2
  rw [k1, k2]

theorem Dbl.val_exactMul (x y : Dbl) :
    Dbl.val { m := x.m * y.m, e := x.e + y.e } = x.val * y.val := by
  have h2 : (2 : ℚ) ≠ 0 := by norm_num
  unfold Dbl.val
  simp only
  rw [zpow_add₀ h2]
  push_cast
  ring

/-- Rounding changes a number by at most the fraction `2 ^ (-53)` of its size. -/
theorem Dbl.fl_err (x : Dbl) : |(Dbl.fl x).val - x.val| ≤ |x.val| / 2 ^ 53 := by
  unfold Dbl.fl
  simp only
  by_cases hb : bitLen x.m.natAbs ≤ 53
  · rw [if_pos hb]
    simp only [sub_self, abs_zero]
    positivity
  · rw [if_neg hb]
    have hn0 : x.m.natAbs ≠ 0 := by
      intro h
      rw [h] at hb
      simp [bitLen, bitLenAux_zero] at hb
    set n := x.m.natAbs with hn
    set s := bitLen n - 53 with hs
    have hs1 : 1 ≤ s := by omega
    have hlow := two_pow_bitLen_le n hn0
    have hbits : bitLen n - 1 = 52 + s := by omega
    rw [hbits] at hlow
    have hdm := Nat.div_add_mod n (2 ^ s)
    have hrem := Nat.mod_lt n (Nat.two_pow_pos s)
    have hhalf : 2 ^ s = 2 * 2 ^ (s - 1) := by
      conv_lhs => rw [← Nat.sub_add_cancel hs1]
      rw [pow_succ]
      ring
    have h53 : 2 ^ (52 + s) = 2 ^ 53 * 2 ^ (s - 1) := by
      have : 52 + s = 53 + (s - 1) := by omega
      rw [this, pow_add]
    -- the rounded significand, as an integer multiple of `2 ^ s`
    have hq1 : ∀ q1 : Nat, (q1 = n / 2 ^ s ∨ q1 = n / 2 ^ s + 1) →
        (q1 = n / 2 ^ s → n % 2 ^ s ≤ 2 ^ (s - 1)) →
        (q1 = n / 2 ^ s + 1 → 2 ^ (s - 1) ≤ n % 2 ^ s) →
        |((if x.m < 0 then -(q1 : Int) else (q1 : Int) : Int) : ℚ) * (2 : ℚ) ^ (x.e + (s : Int)) -
            (x.m : ℚ) * (2 : ℚ) ^ x.e| ≤ |(x.m : ℚ) * (2 : ℚ) ^ x.e| / 2 ^ 53 := by
      intro q1 hq hlo hhi
      have h2 : (2 : ℚ) ≠ 0 := by norm_num
      have hpos : (0 : ℚ) < (2 : ℚ) ^ x.e := zpow_pos (by norm_num) _
      rw [zpow_add₀ h2, zpow_natCast, abs_mul, abs_of_pos hpos]
      have hmabs : |(x.m : ℚ)| = (n : ℚ) := by
        rw [hn, Nat.cast_natAbs]
        push_cast
        rfl
      rw [hmabs]
      have hdiff : |((if x.m < 0 then -(q1 : Int) else (q1 : Int) : Int) : ℚ) * ((2 : ℚ) ^ x.e * (2 : ℚ) ^ s) -
          (x.m : ℚ) * (2 : ℚ) ^ x.e| = |(q1 : ℚ) * (2 : ℚ) ^ s - (n : ℚ)| * (2 : ℚ) ^ x.e := by
        have hm : (x.m : ℚ) = if x.m < 0 then -(n : ℚ) else (n : ℚ) := by
          by_cases hneg : x.m < 0
          · rw [if_pos hneg, ← hmabs, abs_of_neg (by exact_mod_cast hneg)]
            ring
          · rw [if_neg hneg, ← hmabs, abs_of_nonneg (by exact_mod_cast (not_lt.mp hneg))]
        by_cases hneg : x.m < 0
        · rw [if_pos hneg] at hm
          rw [if_pos hneg, hm]
          push_cast
          rw [show -(q1 : ℚ) * ((2 : ℚ) ^ x.e * (2 : ℚ) ^ s) - -(n : ℚ) * (2 : ℚ) ^ x.e =
            -(((q1 : ℚ) * (2 : ℚ) ^ s - (n : ℚ)) * (2 : ℚ) ^ x.e) by ring]
          rw [abs_neg, abs_mul, abs_of_pos hpos]
        · rw [if_neg hneg] at hm
          rw [if_neg hneg, hm]
          push_cast
          rw [show (q1 : ℚ) * ((2 : ℚ) ^ x.e * (2 : ℚ) ^ s) - (n : ℚ) * (2 : ℚ) ^ x.e =
            ((q1 : ℚ) * (2 : ℚ) ^ s - (n : ℚ)) * (2 : ℚ) ^ x.e by ring]
          rw [abs_mul, abs_of_pos hpos]
      rw [hdiff, mul_div_right_comm]
      apply mul_le_mul_of_nonneg_right _ (le_of_lt hpos)
      have hnq : (n : ℚ) = ((n / 2 ^ s : Nat) : ℚ) * (2 : ℚ) ^ s + ((n % 2 ^ s : Nat) : ℚ) := by
        have := congrArg (fun k : Nat => (k : ℚ)) hdm
        simp only [Nat.cast_add, Nat.cast_mul, Nat.cast_pow, Nat.cast_ofNat] at this
        linarith
      have hlowq : (2 : ℚ) ^ 53 * (2 : ℚ) ^ (s - 1) ≤ (n : ℚ) := by
        have : ((2 ^ 53 * 2 ^ (s - 1) : Nat) : ℚ) ≤ (n : ℚ) := by
          exact_mod_cast (h53 ▸ hlow)
        simpa using this
      have hhalfq : (2 : ℚ) ^ s = 2 * (2 : ℚ) ^ (s - 1) := by exact_mod_cast hhalf
      have hremq : ((n % 2 ^ s : Nat) : ℚ) < (2 : ℚ) ^ s := by exact_mod_cast hrem
      have hrem0 : (0 : ℚ) ≤ ((n % 2 ^ s : Nat) : ℚ) := Nat.cast_nonneg _
      rw [le_div_iff₀ (by positivity)]
      rcases hq with h | h
      · have hlo2 : ((n % 2 ^ s : Nat) : ℚ) ≤ (2 : ℚ) ^ (s - 1) := by exact_mod_cast hlo h
        rw [h, hnq, show ((n / 2 ^ s : Nat) : ℚ) * (2 : ℚ) ^ s -
          (((n / 2 ^ s : Nat) : ℚ) * (2 : ℚ) ^ s + ((n % 2 ^ s : Nat) : ℚ)) =
            -((n % 2 ^ s : Nat) : ℚ) by ring, abs_neg, abs_of_nonneg hrem0]
        rw [← hnq]
        nlinarith
      · have hhi2 : (2 : ℚ) ^ (s - 1) ≤ ((n % 2 ^ s : Nat) : ℚ) := by exact_mod_cast hhi h
        rw [h, hnq]
        push_cast
        rw [show (((n / 2 ^ s : Nat) : ℚ) + 1) * (2 : ℚ) ^ s -
          (((n / 2 ^ s : Nat) : ℚ) * (2 : ℚ) ^ s + ((n % 2 ^ s : Nat) : ℚ)) =
            (2 : ℚ) ^ s - ((n % 2 ^ s : Nat) : ℚ) by ring,
          abs_of_nonneg (by linarith)]
        rw [← hnq]
        nlinarith
    unfold Dbl.val
    simp only
    by_cases c1 : n % 2 ^ s < 2 ^ (s - 1)
    · rw [if_pos c1]
      exact hq1 _ (Or.inl rfl) (fun _ => le_of_lt c1) (fun h => by omega)
    · rw [if_neg c1]
      by_cases c2 : 2 ^ (s - 1) < n % 2 ^ s
      · rw [if_pos c2]
        exact hq1 _ (Or.inr rfl) (fun h => by omega) (fun _ => le_of_lt c2)
      · rw [if_neg c2]
        have ceq : n % 2 ^ s = 2 ^ (s - 1) := by omega
        by_cases c3 : n / 2 ^ s % 2 = 0
        · rw [if_pos c3]
          exact hq1 _ (Or.inl rfl) (fun _ => le_of_eq ceq) (fun h => by omega)
        · rw [if_neg c3]
          exact hq1 _ (Or.inr rfl) (fun h => by omega) (fun _ => le_of_eq ceq.symm)

theorem Dbl.fl_val_eq_zero_iff (x : Dbl) : (Dbl.fl x).val = 0 ↔ x.val = 0 := by
  have h := Dbl.fl_err x
  have h53 : (0 : ℚ) < 2 ^ 53 := by positivity
  constructor
  · intro h0
    rw [h0, zero_sub, abs_neg, le_div_iff₀ h53] at h
    have hn : 0 ≤ |x.val| := abs_nonneg _
    have : |x.val| = 0 := by nlinarith
    exact abs_eq_zero.mp this
  · intro h0
    rw [h0, sub_zero, abs_zero, zero_div] at h
    exact abs_eq_zero.mp (le_antisymm h (abs_nonneg _))

theorem Dbl.fl_nonneg (x : Dbl) (h : 0 ≤ x.val) : 0 ≤ (Dbl.fl x).val := by
  have he := Dbl.fl_err x
  rw [abs_of_nonneg h] at he
  have h1 := (abs_le.mp he).1
  have : x.val / 2 ^ 53 ≤ x.val := div_le_self h (by norm_num)
  linarith

theorem Dbl.fl_err_le (x : Dbl) (B : ℚ) (h : |x.val| ≤ B) :
    |(Dbl.fl x).val - x.val| ≤ B / 2 ^ 53 :=
  le_trans (Dbl.fl_err x) (div_le_div_of_nonneg_right h (by positivity))

theorem Dbl.add_err (x y : Dbl) (B : ℚ) (h : |x.val + y.val| ≤ B) :
    |(Dbl.add x y).val - (x.val + y.val)| ≤ B / 2 ^ 53 := by
  have := Dbl.fl_err_le (Dbl.exactAdd x y) B (by rw [Dbl.val_exactAdd]; exact h)
  rw [Dbl.val_exactAdd] at this
  exact this

theorem Dbl.sub_err (x y : Dbl) (B : ℚ) (h : |x.val - y.val| ≤ B) :
    |(Dbl.sub x y).val - (x.val - y.val)| ≤ B / 2 ^ 53 := by
  have e : (Dbl.exactAdd x (Dbl.neg y)).val = x.val - y.val := by
    rw [Dbl.val_exactAdd, Dbl.val_neg]
    ring
  have := Dbl.fl_err_le (Dbl.exactAdd x (Dbl.neg y)) B (by rw [e]; exact h)
  rw [e] at this
  exact this

theorem Dbl.mul_err (x y : Dbl) (B : ℚ) (h : |x.val * y.val| ≤ B) :
    |(Dbl.mul x y).val - x.val * y.val| ≤ B / 2 ^ 53 := by
  have := Dbl.fl_err_le { m := x.m * y.m, e := x.e + y.e } B
    (by rw [Dbl.val_exactMul]; exact h)
  rw [Dbl.val_exactMul] at this
  exact this

theorem Dbl.sub_val_eq_zero_iff (x y : Dbl) : (Dbl.sub x y).val = 0 ↔ x.val = y.val := by
  unfold Dbl.sub
  rw [Dbl.fl_val_eq_zero_iff, Dbl.val_exactAdd, Dbl.val_neg]
  constructor
  · intro h
    linarith
  · intro h
    linarith

theorem Dbl.eqb_iff (x y : Dbl) : Dbl.eqb x y = true ↔ x.val = y.val := by
  unfold Dbl.eqb
  rw [decide_eq_true_iff, ← Dbl.val_eq_zero_iff, Dbl.val_exactAdd, Dbl.val_neg]
  constructor
  · intro h
    linarith
  · intro h
    linarith

/-- An integer below `2 ^ 53` in absolute value converts exactly. -/
theorem Dbl.ofInt_exact (z : Int) (h : z.natAbs < 2 ^ 53) : Dbl.ofInt z = { m := z, e := 0 } := by
  unfold Dbl.ofInt Dbl.fl
  simp only
  rw [if_pos (bitLen_le_of_lt _ _ h)]

theorem Dbl.val_ofInt (z : Int) (h : z.natAbs < 2 ^ 53) : (Dbl.ofInt z).val = (z : ℚ) := by
  rw [Dbl.ofInt_exact z h]
  simp [Dbl.val]

theorem Dbl.val_nonneg_iff (x : Dbl) : 0 ≤ x.val ↔ 0 ≤ x.m := by
  unfold Dbl.val
  have hpos : (0 : ℚ) < (2 : ℚ) ^ x.e := zpow_pos (by norm_num) _
  constructor
  · intro h
    have := (mul_nonneg_iff_of_pos_right hpos).mp h
    exact_mod_cast this
  · intro h
    exact mul_nonneg (by exact_mod_cast h) (le_of_lt hpos)

/-- The conversion to `long` of a non-negative number is its integer part. -/
theorem Dbl.toLong_nonneg (x : Dbl) (h : 0 ≤ x.val) :
    0 ≤ x.toLong ∧ (x.toLong : ℚ) ≤ x.val ∧ x.val < (x.toLong : ℚ) + 1 := by
  have hm : 0 ≤ x.m := (Dbl.val_nonneg_iff x).mp h
  unfold Dbl.toLong Dbl.val
  by_cases he : 0 ≤ x.e
  · rw [if_pos he]
    have e1 : (2 : ℚ) ^ x.e = (2 : ℚ) ^ x.e.toNat := by
      conv_lhs => rw [← Int.toNat_of_nonneg he]
      rw [zpow_natCast]
    rw [e1]
    push_cast
    refine ⟨by positivity, le_refl _, by linarith⟩
  · rw [if_neg he]
    have hk : x.e = -((-x.e).toNat : Int) := by
      rw [Int.toNat_of_nonneg (by omega)]
      ring
    set k := (-x.e).toNat with hkdef
    have hpk : (0 : Int) < 2 ^ k := by positivity
    rw [Int.tdiv_eq_ediv hm (le_of_lt hpk)]
    have e1 : (2 : ℚ) ^ x.e = 1 / (2 : ℚ) ^ k := by
      rw [hk, zpow_neg, zpow_natCast]
      simp
    rw [e1]
    have hpkq : (0 : ℚ) < (2 : ℚ) ^ k := by positivity
    have h1 : x.m / 2 ^ k * 2 ^ k ≤ x.m := Int.ediv_mul_le _ (ne_of_gt hpk)
    have h2 : x.m < (x.m / 2 ^ k + 1) * 2 ^ k := Int.lt_ediv_add_one_mul_self _ hpk
    have h1q : ((x.m / 2 ^ k : Int) : ℚ) * (2 : ℚ) ^ k ≤ (x.m : ℚ) := by exact_mod_cast h1
    have h2q : (x.m : ℚ) < (((x.m / 2 ^ k : Int) : ℚ) + 1) * (2 : ℚ) ^ k := by exact_mod_cast h2
    refine ⟨Int.ediv_nonneg hm (le_of_lt hpk), ?_, ?_⟩
    · rw [mul_one_div, le_div_iff₀ hpkq]
      exact h1q
    · rw [mul_one_div, div_lt_iff₀ hpkq]
      exact h2q

/-- The conversion to `long` of a number that is zero or negative is zero or negative. -/
theorem Dbl.toLong_nonpos (x : Dbl) (h : x.val ≤ 0) : x.toLong ≤ 0 := by
  have hn := Dbl.toLong_nonneg (Dbl.neg x) (by rw [Dbl.val_neg]; linarith)
  have e : (Dbl.neg x).toLong = -x.toLong := by
    unfold Dbl.toLong Dbl.neg
    simp only
    split
    · ring
    · rw [Int.neg_tdiv]
  rw [e] at hn
  omega

theorem c1em9_err : |c1em9.val - 1 / 1000000000| ≤ (1 / 1000000000) / 2 ^ 53 := by
  unfold c1em9 Dbl.val
  simp only
  rw [abs_le]
  constructor <;> norm_num

theorem c1e9_val : c1e9.val = 1000000000 := by
  simp [c1e9, Dbl.val]

theorem Dbl.mul_nonneg (x y : Dbl) (h : 0 ≤ x.val * y.val) : 0 ≤ (Dbl.mul x y).val := by
  unfold Dbl.mul
  apply Dbl.fl_nonneg
  rw [Dbl.val_exactMul]
  exact h

theorem Dbl.add_nonneg (x y : Dbl) (h : 0 ≤ x.val + y.val) : 0 ≤ (Dbl.add x y).val := by
  unfold Dbl.add
  apply Dbl.fl_nonneg
  rw [Dbl.val_exactAdd]
  exact h

theorem Dbl.sub_nonneg (x y : Dbl) (h : y.val ≤ x.val) : 0 ≤ (Dbl.sub x y).val := by
  unfold Dbl.sub
  apply Dbl.fl_nonneg
  rw [Dbl.val_exactAdd, Dbl.val_neg]
  linarith

theorem Dbl.val_zero : (Dbl.ofInt 0).val = 0 := by
  rw [Dbl.val_ofInt 0 (by decide)]
  simp

/-! ## Facts about time stamps and the sleep duration, in double precision -/

theorem get_current_time_split (n : Nat) :
    ((n : ℚ) / 1000000000) =
      ((n / 1000000000 : Nat) : ℚ) + ((n % 1000000000 : Nat) : ℚ) / 1000000000 := by
  have h := Nat.div_add_mod n 1000000000
  have h2 : (n : ℚ) = 1000000000 * ((n / 1000000000 : Nat) : ℚ) + ((n % 1000000000 : Nat) : ℚ) := by
    exact_mod_cast h.symm
  conv_lhs => rw [h2]
  field_simp
  ring

/-- The product `1e-9*nanosec` is within three units of the last place of `nanosec / 10^9`. -/
theorem mul_c1em9_err (r : Nat) (hr : r < 2 ^ 32) :
    |(Dbl.mul c1em9 (Dbl.ofInt (r : Int))).val - (r : ℚ) / 1000000000| ≤
      3 * ((r : ℚ) / 1000000000) / 2 ^ 53 ∧
    0 ≤ (Dbl.mul c1em9 (Dbl.ofInt (r : Int))).val := by
  have hrv : (Dbl.ofInt (r : Int)).val = (r : ℚ) := by
    rw [Dbl.val_ofInt _ (by simp only [Int.natAbs_ofNat]; omega)]
    simp
  have hc := abs_le.mp c1em9_err
  have hr0 : (0 : ℚ) ≤ (r : ℚ) := Nat.cast_nonneg r
  have hcpos : 0 ≤ c1em9.val := by
    have : (0 : ℚ) ≤ 1 / 1000000000 - 1 / 1000000000 / 2 ^ 53 := by norm_num
    linarith [hc.1]
  have hprod0 : 0 ≤ c1em9.val * (r : ℚ) := mul_nonneg hcpos hr0
  have hfl := Dbl.mul_err c1em9 (Dbl.ofInt (r : Int)) (c1em9.val * (r : ℚ))
    (by rw [hrv, abs_of_nonneg hprod0])
  rw [hrv] at hfl
  have hfl2 := abs_le.mp hfl
  have hnn : 0 ≤ (Dbl.mul c1em9 (Dbl.ofInt (r : Int))).val :=
    Dbl.mul_nonneg _ _ (by rw [hrv]; exact hprod0)
  refine ⟨?_, hnn⟩
  have h1 : c1em9.val * (r : ℚ) ≤ (1 / 1000000000 + 1 / 1000000000 / 2 ^ 53) * (r : ℚ) :=
    mul_le_mul_of_nonneg_right (by linarith [hc.2]) hr0
  have h2 : (1 / 1000000000 - 1 / 1000000000 / 2 ^ 53) * (r : ℚ) ≤ c1em9.val * (r : ℚ) :=
    mul_le_mul_of_nonneg_right (by linarith [hc.1]) hr0
  have h3 : c1em9.val * (r : ℚ) / 2 ^ 53 ≤
      (1 / 1000000000 + 1 / 1000000000 / 2 ^ 53) * (r : ℚ) / 2 ^ 53 :=
    div_le_div_of_nonneg_right h1 (by positivity)
  have h4 : (r : ℚ) / 1000000000 / 2 ^ 53 / 2 ^ 53 ≤ (r : ℚ) / 1000000000 / 2 ^ 53 :=
    div_le_self (by positivity) (by norm_num)
  have h5 : (0 : ℚ) ≤ (r : ℚ) / 1000000000 / 2 ^ 53 / 2 ^ 53 := by positivity
  rw [abs_le]
  constructor
  · linarith [hfl2.1, hfl2.2]
  · linarith [hfl2.1, hfl2.2]

/-- A time stamp below `2 ^ 31` seconds is converted to seconds with an error of at most
`(2 ^ 31 + 5) / 2 ^ 53`. -/
theorem timeToDouble_err (n : Nat) (hn : n ≤ 2 ^ 31 * 1000000000) :
    |(timeToDouble (get_current_time n)).val - (n : ℚ) / 1000000000| ≤
      (2 ^ 31 + 5) / 2 ^ 53 := by
  have hs : n / 1000000000 ≤ 2 ^ 31 := by omega
  have hr : n % 1000000000 < 1000000000 := Nat.mod_lt _ (by decide)
  rw [get_current_time_split n]
  unfold timeToDouble get_current_time
  simp only
  have hsv : (Dbl.ofInt ((n / 1000000000 : Nat) : Int)).val = ((n / 1000000000 : Nat) : ℚ) := by
    rw [Dbl.val_ofInt _ (by simp only [Int.natAbs_ofNat]; omega), Int.cast_natCast]
  obtain ⟨hu, hu0⟩ := mul_c1em9_err (n % 1000000000) (by omega)
  have hu2 := abs_le.mp hu
  have hrq : ((n % 1000000000 : Nat) : ℚ) / 1000000000 ≤ 1 := by
    rw [div_le_one (by norm_num)]
    exact_mod_cast le_of_lt hr
  have hrq0 : (0 : ℚ) ≤ ((n % 1000000000 : Nat) : ℚ) / 1000000000 := by positivity
  have hsq : ((n / 1000000000 : Nat) : ℚ) ≤ 2 ^ 31 := by exact_mod_cast hs
  have hsq0 : (0 : ℚ) ≤ ((n / 1000000000 : Nat) : ℚ) := Nat.cast_nonneg _
  have h3 : 3 * (((n % 1000000000 : Nat) : ℚ) / 1000000000) / 2 ^ 53 ≤ 3 / 2 ^ 53 :=
    div_le_div_of_nonneg_right (by linarith) (by positivity)
  have hB : |(Dbl.ofInt ((n / 1000000000 : Nat) : Int)).val +
      (Dbl.mul c1em9 (Dbl.ofInt ((n % 1000000000 : Nat) : Int))).val| ≤ 2 ^ 31 + 2 := by
    rw [hsv, abs_of_nonneg (by linarith)]
    have : (3 : ℚ) / 2 ^ 53 ≤ 1 := by norm_num
    linarith [hu2.2]
  have hadd := abs_le.mp (Dbl.add_err _ _ _ hB)
  rw [hsv] at hadd
  rw [abs_le]
  have e5 : ((2 : ℚ) ^ 31 + 5) / 2 ^ 53 = (2 ^ 31 + 2) / 2 ^ 53 + 3 / 2 ^ 53 := by ring
  rw [e5]
  constructor
  · linarith [hadd.1, hu2.1]
  · linarith [hadd.2, hu2.2]

/-- A period of whole seconds and nanoseconds is converted to seconds with a relative error
of at most `5 / 2 ^ 53`. -/
theorem durationToSeconds_err (d : DDS_Duration_t) (hsec : 0 ≤ d.sec) (hsmax : d.sec ≤ 2 ^ 31)
    (hns : d.nanosec < 2 ^ 32) :
    |(durationToSeconds d).val - ((d.sec : ℚ) + (d.nanosec : ℚ) / 1000000000)| ≤
      5 * ((d.sec : ℚ) + (d.nanosec : ℚ) / 1000000000) / 2 ^ 53 ∧
    0 ≤ (durationToSeconds d).val := by
  unfold durationToSeconds
  have hsv : (Dbl.ofInt d.sec).val = (d.sec : ℚ) := Dbl.val_ofInt _ (by omega)
  obtain ⟨hu, hu0⟩ := mul_c1em9_err d.nanosec hns
  have hu2 := abs_le.mp hu
  have hs0 : (0 : ℚ) ≤ (d.sec : ℚ) := by exact_mod_cast hsec
  have hn0 : (0 : ℚ) ≤ (d.nanosec : ℚ) / 1000000000 := by positivity
  have hsum0 : 0 ≤ (Dbl.ofInt d.sec).val + (Dbl.mul c1em9 (Dbl.ofInt (d.nanosec : Int))).val := by
    rw [hsv]
    linarith
  have hadd := abs_le.mp (Dbl.add_err _ _ _ (le_of_eq (abs_of_nonneg hsum0)))
  rw [hsv] at hadd
  have h3 : 3 * ((d.nanosec : ℚ) / 1000000000) / 2 ^ 53 ≤ (d.nanosec : ℚ) / 1000000000 := by
    rw [div_le_iff₀ (by positivity)]
    nlinarith
  have hup : (Dbl.mul c1em9 (Dbl.ofInt (d.nanosec : Int))).val ≤
      2 * ((d.nanosec : ℚ) / 1000000000) := by linarith [hu2.2]
  have hB : ((d.sec : ℚ) + (Dbl.mul c1em9 (Dbl.ofInt (d.nanosec : Int))).val) / 2 ^ 53 ≤
      2 * ((d.sec : ℚ) + (d.nanosec : ℚ) / 1000000000) / 2 ^ 53 :=
    div_le_div_of_nonneg_right (by linarith) (by positivity)
  have hs53 : (0 : ℚ) ≤ (d.sec : ℚ) / 2 ^ 53 := by positivity
  refine ⟨?_, Dbl.add_nonneg _ _ hsum0⟩
  rw [abs_le]
  constructor
  · linarith [hadd.1, hu2.1]
  · linarith [hadd.2, hu2.2]

/-- The product `send_period_s * (count + 1)` has a relative error of at most `7 / 2 ^ 53`. -/
theorem period_times_count_err (d : DDS_Duration_t) (count : Nat) (hsec : 0 ≤ d.sec)
    (hsmax : d.sec ≤ 2 ^ 31) (hns : d.nanosec < 2 ^ 32) (hcount : count + 1 < 2 ^ 31) :
    |(Dbl.mul (durationToSeconds d) (Dbl.ofInt ((count : Int) + 1))).val -
        ((d.sec : ℚ) + (d.nanosec : ℚ) / 1000000000) * ((count : ℚ) + 1)| ≤
      7 * (((d.sec : ℚ) + (d.nanosec : ℚ) / 1000000000) * ((count : ℚ) + 1)) / 2 ^ 53 := by
  obtain ⟨hd, hd0⟩ := durationToSeconds_err d hsec hsmax hns
  have hd2 := abs_le.mp hd
  have hcv : (Dbl.ofInt ((count : Int) + 1)).val = (count : ℚ) + 1 := by
    rw [Dbl.val_ofInt _ (by omega)]
    push_cast
    ring
  have hmu : (0 : ℚ) ≤ (count : ℚ) + 1 := by positivity
  have hs0 : (0 : ℚ) ≤ (d.sec : ℚ) := by exact_mod_cast hsec
  have hp0 : (0 : ℚ) ≤ (d.sec : ℚ) + (d.nanosec : ℚ) / 1000000000 := by positivity
  have hP0 : (0 : ℚ) ≤ ((d.sec : ℚ) + (d.nanosec : ℚ) / 1000000000) * ((count : ℚ) + 1) :=
    mul_nonneg hp0 hmu
  have hprod0 : 0 ≤ (durationToSeconds d).val * (Dbl.ofInt ((count : Int) + 1)).val := by
    rw [hcv]
    exact mul_nonneg hd0 hmu
  have hm := abs_le.mp (Dbl.mul_err _ _ _ (le_of_eq (abs_of_nonneg hprod0)))
  rw [hcv] at hm
  have h1 := mul_le_mul_of_nonneg_right hd2.1 hmu
  have h2 := mul_le_mul_of_nonneg_right hd2.2 hmu
  have h53 : 5 * ((d.sec : ℚ) + (d.nanosec : ℚ) / 1000000000) / 2 ^ 53 * ((count : ℚ) + 1) =
      5 * (((d.sec : ℚ) + (d.nanosec : ℚ) / 1000000000) * ((count : ℚ) + 1)) / 2 ^ 53 := by ring
  rw [neg_mul, h53, sub_mul] at h1
  rw [h53, sub_mul] at h2
  have hsmall : 5 * (((d.sec : ℚ) + (d.nanosec : ℚ) / 1000000000) * ((count : ℚ) + 1)) / 2 ^ 53 ≤
      ((d.sec : ℚ) + (d.nanosec : ℚ) / 1000000000) * ((count : ℚ) + 1) := by
    rw [div_le_iff₀ (by positivity)]
    nlinarith
  have hB : (durationToSeconds d).val * ((count : ℚ) + 1) / 2 ^ 53 ≤
      2 * (((d.sec : ℚ) + (d.nanosec : ℚ) / 1000000000) * ((count : ℚ) + 1)) / 2 ^ 53 :=
    div_le_div_of_nonneg_right (by linarith) (by positivity)
  rw [abs_le]
  constructor
  · linarith [hm.1]
  · linarith [hm.2]

/-- The computed `time_sleep_s` is within `(11 * 2 ^ 31 + 12) / 2 ^ 53` seconds (less than
2623 ns) of the exact time left until the deadline, when the deadline and the current time
are below `2 ^ 31` seconds. -/
theorem timeSleepS_err (d : DDS_Duration_t) (t0 now2 count : Nat) (hsec : 0 ≤ d.sec)
    (hns : d.nanosec < 2 ^ 32) (hcount : count + 1 < 2 ^ 31)
    (hD : (t0 : ℚ) / 1000000000 +
      ((d.sec : ℚ) + (d.nanosec : ℚ) / 1000000000) * ((count : ℚ) + 1) ≤ 2 ^ 31)
    (hnow : now2 ≤ 2 ^ 31 * 1000000000) :
    |(timeSleepS (timeToDouble (get_current_time t0)) (durationToSeconds d) count
        (get_current_time now2)).val -
      ((t0 : ℚ) / 1000000000 +
        ((d.sec : ℚ) + (d.nanosec : ℚ) / 1000000000) * ((count : ℚ) + 1) -
        (now2 : ℚ) / 1000000000)| ≤ (11 * 2 ^ 31 + 12) / 2 ^ 53 := by
  have hmu : (1 : ℚ) ≤ (count : ℚ) + 1 := by
    have : (0 : ℚ) ≤ (count : ℚ) := Nat.cast_nonneg _
    linarith
  have hs0 : (0 : ℚ) ≤ (d.sec : ℚ) := by exact_mod_cast hsec
  have hn0 : (0 : ℚ) ≤ (d.nanosec : ℚ) / 1000000000 := by positivity
  have hp0 : (0 : ℚ) ≤ (d.sec : ℚ) + (d.nanosec : ℚ) / 1000000000 := by positivity
  have hP0 : (0 : ℚ) ≤ ((d.sec : ℚ) + (d.nanosec : ℚ) / 1000000000) * ((count : ℚ) + 1) :=
    mul_nonneg hp0 (by linarith)
  have ht0 : (0 : ℚ) ≤ (t0 : ℚ) / 1000000000 := by positivity
  have hpP : (d.sec : ℚ) + (d.nanosec : ℚ) / 1000000000 ≤
      ((d.sec : ℚ) + (d.nanosec : ℚ) / 1000000000) * ((count : ℚ) + 1) :=
    le_mul_of_one_le_right hp0 hmu
  have hsmax : d.sec ≤ 2 ^ 31 := by
    have : (d.sec : ℚ) ≤ 2 ^ 31 := by linarith
    exact_mod_cast this
  have ht0max : t0 ≤ 2 ^ 31 * 1000000000 := by
    have h1 : (t0 : ℚ) / 1000000000 ≤ 2 ^ 31 := by linarith
    rw [div_le_iff₀ (by norm_num)] at h1
    exact_mod_cast h1
  have hnu0 : (0 : ℚ) ≤ (now2 : ℚ) / 1000000000 := by positivity
  have hnumax : (now2 : ℚ) / 1000000000 ≤ 2 ^ 31 := by
    rw [div_le_iff₀ (by norm_num)]
    exact_mod_cast hnow
  have hb := abs_le.mp (timeToDouble_err t0 ht0max)
  have hn := abs_le.mp (timeToDouble_err now2 hnow)
  have hp := abs_le.mp (period_times_count_err d count hsec hsmax hns hcount)
  have hP7 : 7 * (((d.sec : ℚ) + (d.nanosec : ℚ) / 1000000000) * ((count : ℚ) + 1)) / 2 ^ 53 ≤
      7 * 2 ^ 31 / 2 ^ 53 :=
    div_le_div_of_nonneg_right (by linarith) (by positivity)
  unfold timeSleepS
  simp only
  have hBn : |(timeToDouble (get_current_time t0)).val +
      (Dbl.mul (durationToSeconds d) (Dbl.ofInt ((count : Int) + 1))).val| ≤ 2 ^ 31 + 1 := by
    rw [abs_le]
    constructor
    · norm_num at hb hp hP7 ⊢
      linarith [hb.1, hp.1]
    · norm_num at hb hp hP7 ⊢
      linarith [hb.2, hp.2]
  have hnext := abs_le.mp (Dbl.add_err _ _ _ hBn)
  have hBs : |(Dbl.add (timeToDouble (get_current_time t0))
      (Dbl.mul (durationToSeconds d) (Dbl.ofInt ((count : Int) + 1)))).val -
      (timeToDouble (get_current_time now2)).val| ≤ 2 ^ 31 + 1 := by
    rw [abs_le]
    constructor
    · norm_num at hb hn hp hP7 hnext ⊢
      linarith [hb.1, hp.1, hn.2, hnext.1]
    · norm_num at hb hn hp hP7 hnext ⊢
      linarith [hb.2, hp.2, hn.1, hnext.2]
  have hsl := abs_le.mp (Dbl.sub_err _ _ _ hBs)
  rw [abs_le]
  constructor
  · norm_num at hb hn hp hP7 hnext hsl ⊢
    linarith [hb.1, hp.1, hn.2, hnext.1, hsl.1]
  · norm_num at hb hn hp hP7 hnext hsl ⊢
    linarith [hb.2, hp.2, hn.1, hnext.2, hsl.2]

theorem timeSleep_sec (s : Dbl) : (timeSleep s).sec = Dbl.toLong s := rfl

theorem timeSleep_nanosec (s : Dbl) :
    (timeSleep s).nanosec =
      (Dbl.toLong (Dbl.mul c1e9 (Dbl.sub s (Dbl.ofInt (Dbl.toLong s)))) % 2 ^ 32).toNat := rfl

/-- For `0 ≤ time_sleep_s ≤ 2 ^ 31 + 1` the two fields of the duration passed to `sleep`
are non-negative, the nanoseconds do not wrap, and the duration is within 2 ns of
`time_sleep_s`. -/
theorem timeSleep_near (s : Dbl) (h0 : 0 ≤ s.val) (hmax : s.val ≤ 2 ^ 31 + 1) :
    0 ≤ (timeSleep s).sec ∧
    |((timeSleep s).sec : ℚ) * 1000000000 + ((timeSleep s).nanosec : ℚ) -
      1000000000 * s.val| ≤ 2 := by
  obtain ⟨hz0, hzle, hzlt⟩ := Dbl.toLong_nonneg s h0
  have hzmax : Dbl.toLong s ≤ 2 ^ 31 + 1 := by
    have : ((Dbl.toLong s : Int) : ℚ) ≤ 2 ^ 31 + 1 := by linarith
    exact_mod_cast this
  have hzv : (Dbl.ofInt (Dbl.toLong s)).val = ((Dbl.toLong s : Int) : ℚ) :=
    Dbl.val_ofInt _ (by omega)
  have hfr0 : 0 ≤ (Dbl.sub s (Dbl.ofInt (Dbl.toLong s))).val :=
    Dbl.sub_nonneg _ _ (by rw [hzv]; exact hzle)
  have hB1 : |s.val - (Dbl.ofInt (Dbl.toLong s)).val| ≤ 1 := by
    rw [hzv, abs_le]
    constructor <;> linarith
  have hfr := abs_le.mp (Dbl.sub_err _ _ _ hB1)
  rw [hzv] at hfr
  have hy0 : 0 ≤ (Dbl.mul c1e9 (Dbl.sub s (Dbl.ofInt (Dbl.toLong s)))).val :=
    Dbl.mul_nonneg _ _ (by rw [c1e9_val]; linarith)
  have hB2 : |c1e9.val * (Dbl.sub s (Dbl.ofInt (Dbl.toLong s))).val| ≤ 2000000000 := by
    rw [c1e9_val, abs_of_nonneg (by linarith)]
    norm_num at hfr ⊢
    linarith [hfr.2]
  have hy := abs_le.mp (Dbl.mul_err _ _ _ hB2)
  rw [c1e9_val] at hy
  obtain ⟨hn0, hnle, hnlt⟩ := Dbl.toLong_nonneg _ hy0
  have hnmax : Dbl.toLong (Dbl.mul c1e9 (Dbl.sub s (Dbl.ofInt (Dbl.toLong s)))) < 2 ^ 32 := by
    have : ((Dbl.toLong (Dbl.mul c1e9 (Dbl.sub s (Dbl.ofInt (Dbl.toLong s)))) : Int) : ℚ) <
        2 ^ 32 := by
      norm_num at hfr hy ⊢
      linarith [hfr.2, hy.2]
    exact_mod_cast this
  have hmod : Dbl.toLong (Dbl.mul c1e9 (Dbl.sub s (Dbl.ofInt (Dbl.toLong s)))) % 2 ^ 32 =
      Dbl.toLong (Dbl.mul c1e9 (Dbl.sub s (Dbl.ofInt (Dbl.toLong s)))) :=
    Int.emod_eq_of_lt hn0 hnmax
  have hcast : ((timeSleep s).nanosec : ℚ) =
      ((Dbl.toLong (Dbl.mul c1e9 (Dbl.sub s (Dbl.ofInt (Dbl.toLong s)))) : Int) : ℚ) := by
    rw [timeSleep_nanosec, hmod]
    have h := Int.toNat_of_nonneg hn0
    exact_mod_cast congrArg (fun z : Int => (z : ℚ)) h
  rw [timeSleep_sec, hcast]
  refine ⟨hz0, ?_⟩
  rw [abs_le]
  constructor
  · norm_num at hfr hy ⊢
    linarith [hfr.1, hfr.2, hy.1, hy.2]
  · norm_num at hfr hy ⊢
    linarith [hfr.1, hfr.2, hy.1, hy.2]

theorem publishCycle_now (M : Nat) (env : PubEnv) (tb sp : Dbl) (count : Nat) (st : PubState) :
    (publishCycle M env tb sp count st).now =
      st.now + env.fillDur count + env.writeDur count +
        sleepAdvance (timeSleep (timeSleepS tb sp count
          (get_current_time (st.now + env.fillDur count + env.writeDur count)))) := rfl

theorem sleepAdvance_cast (d : DDS_Duration_t) (h : 0 ≤ d.sec) :
    ((sleepAdvance d : Nat) : Int) = d.sec * 1000000000 + (d.nanosec : Int) := by
  unfold sleepAdvance
  exact Int.toNat_of_nonneg
    (Int.add_nonneg (Int.mul_nonneg h (by norm_num)) (Int.ofNat_nonneg _))

/-- When the work of a cycle ends at least 3000 ns before its deadline, and the deadline is
below `2 ^ 31` seconds, the computed `time_sleep_s` is positive, the duration passed to
`sleep` has non-negative seconds, and after the sleep the clock is within 3000 ns of the
deadline. -/
theorem sleep_to_deadline (d : DDS_Duration_t) (t0 now2 count : Nat) (hsec : 0 ≤ d.sec)
    (hns : d.nanosec < 2 ^ 32) (hcount : count + 1 < 2 ^ 31)
    (hD : (t0 : Int) + (d.sec * 1000000000 + (d.nanosec : Int)) * ((count : Int) + 1) ≤
      2 ^ 31 * 1000000000)
    (hwork : (now2 : Int) + 3000 ≤
      (t0 : Int) + (d.sec * 1000000000 + (d.nanosec : Int)) * ((count : Int) + 1)) :
    0 < (timeSleepS (timeToDouble (get_current_time t0)) (durationToSeconds d) count
      (get_current_time now2)).val ∧
    0 ≤ (timeSleep (timeSleepS (timeToDouble (get_current_time t0)) (durationToSeconds d) count
      (get_current_time now2))).sec ∧
    |((now2 + sleepAdvance (timeSleep (timeSleepS (timeToDouble (get_current_time t0))
        (durationToSeconds d) count (get_current_time now2))) : Nat) : Int) -
      ((t0 : Int) + (d.sec * 1000000000 + (d.nanosec : Int)) * ((count : Int) + 1))| ≤ 3000 := by
  have hDq : 1000000000 * ((t0 : ℚ) / 1000000000 +
      ((d.sec : ℚ) + (d.nanosec : ℚ) / 1000000000) * ((count : ℚ) + 1)) =
      (t0 : ℚ) + ((d.sec : ℚ) * 1000000000 + (d.nanosec : ℚ)) * ((count : ℚ) + 1) := by
    field_simp
  have hD1 : (t0 : ℚ) + ((d.sec : ℚ) * 1000000000 + (d.nanosec : ℚ)) * ((count : ℚ) + 1) ≤
      2 ^ 31 * 1000000000 := by exact_mod_cast hD
  have hw1 : (now2 : ℚ) + 3000 ≤
      (t0 : ℚ) + ((d.sec : ℚ) * 1000000000 + (d.nanosec : ℚ)) * ((count : ℚ) + 1) := by
    exact_mod_cast hwork
  have hnow : now2 ≤ 2 ^ 31 * 1000000000 := by
    have : (now2 : Int) ≤ 2 ^ 31 * 1000000000 := by omega
    exact_mod_cast this
  have hnq : 1000000000 * ((now2 : ℚ) / 1000000000) = (now2 : ℚ) := by
    field_simp
  have hn0 : (0 : ℚ) ≤ (now2 : ℚ) := Nat.cast_nonneg _
  have herr := abs_le.mp (timeSleepS_err d t0 now2 count hsec hns hcount (by linarith) hnow)
  set s := timeSleepS (timeToDouble (get_current_time t0)) (durationToSeconds d) count
    (get_current_time now2) with hs
  set Dq := (t0 : ℚ) / 1000000000 +
    ((d.sec : ℚ) + (d.nanosec : ℚ) / 1000000000) * ((count : ℚ) + 1) with hDqdef
  have hpos : 0 < s.val := by
    norm_num at herr ⊢
    linarith [herr.1]
  have hmax : s.val ≤ 2 ^ 31 + 1 := by
    norm_num at herr ⊢
    linarith [herr.2]
  obtain ⟨hsec0, hnear⟩ := timeSleep_near s (le_of_lt hpos) hmax
  have hnear2 := abs_le.mp hnear
  have hadv := sleepAdvance_cast (timeSleep s) hsec0
  refine ⟨hpos, hsec0, ?_⟩
  rw [abs_le]
  push_cast
  rw [hadv]
  constructor
  · have : (-3000 : ℚ) ≤ (now2 : ℚ) + (((timeSleep s).sec : ℚ) * 1000000000 +
        ((timeSleep s).nanosec : ℚ)) -
        ((t0 : ℚ) + ((d.sec : ℚ) * 1000000000 + (d.nanosec : ℚ)) * ((count : ℚ) + 1)) := by
      norm_num at herr ⊢
      linarith [herr.1, hnear2.1]
    exact_mod_cast this
  · have : (now2 : ℚ) + (((timeSleep s).sec : ℚ) * 1000000000 +
        ((timeSleep s).nanosec : ℚ)) -
        ((t0 : ℚ) + ((d.sec : ℚ) * 1000000000 + (d.nanosec : ℚ)) * ((count : ℚ) + 1)) ≤ 3000 := by
      norm_num at herr ⊢
      linarith [herr.2, hnear2.2]
    exact_mod_cast this

/-! ## Facts about the deadline schedule -/

/-- The duration handed to `sleep` in cycle `k`. -/
theorem cyclesFrom_sleeps (M : Nat) (env : PubEnv) (tb sp : Dbl) (sample0 : CameraImageData)
    (t0 n k : Nat) (hk : k < n) :
    (cyclesFrom M env tb sp 0 (PubState.init sample0 t0) n).sleeps[k]? =
      some (timeSleep (timeSleepS tb sp k (get_current_time
        ((cyclesFrom M env tb sp 0 (PubState.init sample0 t0) k).now + env.fillDur k +
          env.writeDur k)))) := by
  induction n with
  | zero => omega
  | succ n ih =>
    simp only [cyclesFrom, publishCycle]
    rcases Nat.lt_or_ge k n with hlt | hge
    · rw [List.getElem?_append_left (by rw [cyclesFrom_sleeps_length]; exact hlt)]
      exact ih hlt
    · have hkn : k = n := by omega
      subst hkn
      have hlen := cyclesFrom_sleeps_length M env tb sp sample0 t0 k
      have hget : ∀ (L : List DDS_Duration_t) (a : DDS_Duration_t),
          L.length = k → (L ++ [a])[k]? = some a := by
        intro L a h
        subst h
        simp
      rw [hget _ _ hlen]
      simp only [Nat.zero_add]

/-- A run whose cycles all end their work at least 3000 ns before the deadline is, after
`n` cycles, within 3000 ns of `time_begin + n * send_period`. -/
theorem cyclesFrom_on_schedule (M : Nat) (env : PubEnv) (d : DDS_Duration_t)
    (sample0 : CameraImageData) (t0 n : Nat) (hsec : 0 ≤ d.sec) (hns : d.nanosec < 2 ^ 32)
    (hn : n < 2 ^ 31)
    (hmax : (t0 : Int) + (d.sec * 1000000000 + (d.nanosec : Int)) * (n : Int) ≤
      2 ^ 31 * 1000000000)
    (h : ∀ k, k < n →
      (((cyclesFrom M env (timeToDouble (get_current_time t0)) (durationToSeconds d) 0
          (PubState.init sample0 t0) k).now + env.fillDur k + env.writeDur k : Nat) : Int) +
          3000 ≤
        (t0 : Int) + (d.sec * 1000000000 + (d.nanosec : Int)) * ((k : Int) + 1)) :
    |((cyclesFrom M env (timeToDouble (get_current_time t0)) (durationToSeconds d) 0
        (PubState.init sample0 t0) n).now : Int) -
      ((t0 : Int) + (d.sec * 1000000000 + (d.nanosec : Int)) * (n : Int))| ≤ 3000 := by
  cases n with
  | zero => simp [cyclesFrom, PubState.init]
  | succ n =>
    have hn1 := h n (by omega)
    have hD : (t0 : Int) + (d.sec * 1000000000 + (d.nanosec : Int)) * ((n : Int) + 1) ≤
        2 ^ 31 * 1000000000 := by
      push_cast at hmax
      exact hmax
    rw [cyclesFrom, publishCycle_now, Nat.zero_add]
    have hs := (sleep_to_deadline d t0 _ n hsec hns hn hD hn1).2.2
    push_cast at hs ⊢
    exact hs

/-- When no cycle works longer than the period less 6000 ns, every cycle starts within
3000 ns of its place in the schedule. -/
theorem cyclesFrom_within_period (M : Nat) (env : PubEnv) (d : DDS_Duration_t)
    (sample0 : CameraImageData) (t0 : Nat) (hsec : 0 ≤ d.sec) (hns : d.nanosec < 2 ^ 32)
    (hw : ∀ k, ((env.fillDur k + env.writeDur k : Nat) : Int) + 6000 ≤
      d.sec * 1000000000 + (d.nanosec : Int)) (n : Nat) :
    n < 2 ^ 31 →
    (t0 : Int) + (d.sec * 1000000000 + (d.nanosec : Int)) * (n : Int) ≤ 2 ^ 31 * 1000000000 →
    |((cyclesFrom M env (timeToDouble (get_current_time t0)) (durationToSeconds d) 0
        (PubState.init sample0 t0) n).now : Int) -
      ((t0 : Int) + (d.sec * 1000000000 + (d.nanosec : Int)) * (n : Int))| ≤ 3000 := by
  have hP : 0 ≤ d.sec * 1000000000 + (d.nanosec : Int) := by
    have := hw 0
    omega
  induction n using Nat.strong_induction_on with
  | _ n ih =>
    intro hn hmax
    apply cyclesFrom_on_schedule M env d sample0 t0 n hsec hns hn hmax
    intro k hk
    have hkn : (d.sec * 1000000000 + (d.nanosec : Int)) * (k : Int) ≤
        (d.sec * 1000000000 + (d.nanosec : Int)) * (n : Int) :=
      mul_le_mul_of_nonneg_left (by exact_mod_cast le_of_lt hk) hP
    have h1 := abs_le.mp (ih k hk (by omega) (by omega))
    have h2 := hw k
    have e : (d.sec * 1000000000 + (d.nanosec : Int)) * ((k : Int) + 1) =
        (d.sec * 1000000000 + (d.nanosec : Int)) * (k : Int) +
          (d.sec * 1000000000 + (d.nanosec : Int)) := by ring
    rw [e]
    push_cast at h2 ⊢
    omega

/-! ## Facts about the transit-time statistics -/

theorem calcAll_nil (M : Nat) (st : TransitStats) : calcAll M st [] = (st, []) := rfl

theorem calcAll_concat (M : Nat) (st : TransitStats) (l : List (DDS_Time_t × DDS_Time_t))
    (p : DDS_Time_t × DDS_Time_t) :
    calcAll M st (l ++ [p]) =
      ((calcAndPrintTransitTime M (calcAll M st l).1 p.1 p.2).1,
        (calcAll M st l).2 ++ [(calcAndPrintTransitTime M (calcAll M st l).1 p.1 p.2).2]) := by
  simp [calcAll, List.foldl_append]

/-- The last report shows the statistics as they stand after the last call. -/
theorem calcAll_last (M : Nat) (st : TransitStats) (l : List (DDS_Time_t × DDS_Time_t))
    (p : DDS_Time_t × DDS_Time_t) :
    ∃ rep, (calcAll M st (l ++ [p])).2.getLast? = some rep ∧
      rep.lat = transitDelta p ∧
      rep.recv = (calcAll M st (l ++ [p])).1.tSampleCount ∧
      rep.tMin = (calcAll M st (l ++ [p])).1.tMin ∧
      rep.tMax = (calcAll M st (l ++ [p])).1.tMax ∧
      rep.tAvg = (calcAll M st (l ++ [p])).1.tSum /
        ((calcAll M st (l ++ [p])).1.tSampleCount : ℚ) := by
  rw [calcAll_concat]
  refine ⟨_, List.getLast?_concat _, ?_, ?_, ?_, ?_, ?_⟩ <;> rfl

/-- What the `static` variables hold after the calls for the samples `l`. -/
theorem calcAll_stats (M : Nat) (l : List (DDS_Time_t × DDS_Time_t)) :
    (calcAll M TransitStats.init l).1.tSum = (l.map transitDelta).sum ∧
    (calcAll M TransitStats.init l).1.tSampleCount = l.length % 2 ^ 32 ∧
    ((calcAll M TransitStats.init l).1.tMin ≤ 1000 ∧
      (∀ p ∈ l, (calcAll M TransitStats.init l).1.tMin ≤ transitDelta p) ∧
      ((calcAll M TransitStats.init l).1.tMin = 1000 ∨
        ∃ p ∈ l, (calcAll M TransitStats.init l).1.tMin = transitDelta p)) ∧
    (0 ≤ (calcAll M TransitStats.init l).1.tMax ∧
      (∀ p ∈ l, transitDelta p ≤ (calcAll M TransitStats.init l).1.tMax) ∧
      ((calcAll M TransitStats.init l).1.tMax = 0 ∨
        ∃ p ∈ l, (calcAll M TransitStats.init l).1.tMax = transitDelta p)) := by
  induction l using List.reverseRecOn with
  | nil => simp [calcAll_nil, TransitStats.init]
  | append_singleton l p ih =>
    obtain ⟨hsum, hcnt, ⟨hmin1, hmin2, hmin3⟩, ⟨hmax1, hmax2, hmax3⟩⟩ := ih
    rw [calcAll_concat]
    simp only [calcAndPrintTransitTime]
    have hd : timeToSeconds p.2 - timeToSeconds p.1 = transitDelta p := rfl
    rw [hd]
    refine ⟨?_, ?_, ⟨?_, ?_, ?_⟩, ⟨?_, ?_, ?_⟩⟩
    · rw [hsum]
      simp
    · rw [hcnt]
      simp only [List.length_append, List.length_singleton]
      omega
    · split
      · linarith
      · exact hmin1
    · intro q hq
      rcases List.mem_append.mp hq with hq | hq
      · have := hmin2 q hq
        split
        · linarith
        · exact this
      · rw [List.mem_singleton.mp hq]
        split
        · exact le_refl _
        · linarith
    · split
      · exact Or.inr ⟨p, by simp, rfl⟩
      · rcases hmin3 with h | ⟨q, hq, h⟩
        · exact Or.inl h
        · exact Or.inr ⟨q, List.mem_append.mpr (Or.inl hq), h⟩
    · split
      · linarith
      · exact hmax1
    · intro q hq
      rcases List.mem_append.mp hq with hq | hq
      · have := hmax2 q hq
        split
        · linarith
        · exact this
      · rw [List.mem_singleton.mp hq]
        split
        · exact le_refl _
        · linarith
    · split
      · exact Or.inr ⟨p, by simp, rfl⟩
      · rcases hmax3 with h | ⟨q, hq, h⟩
        · exact Or.inl h
        · exact Or.inr ⟨q, List.mem_append.mpr (Or.inl hq), h⟩

theorem first_report (M : Nat) (tSend tReceive : DDS_Time_t) :
    (calcAndPrintTransitTime M TransitStats.init tSend tReceive).2.lat =
        transitDelta (tSend, tReceive) ∧
      (calcAndPrintTransitTime M TransitStats.init tSend tReceive).2.tAvg =
        transitDelta (tSend, tReceive) ∧
      (calcAndPrintTransitTime M TransitStats.init tSend tReceive).2.tMin =
        min (transitDelta (tSend, tReceive)) 1000 ∧
      (calcAndPrintTransitTime M TransitStats.init tSend tReceive).2.tMax =
        max (transitDelta (tSend, tReceive)) 0 := by
  refine ⟨rfl, ?_, ?_, ?_⟩
  · simp only [calcAndPrintTransitTime, TransitStats.init, transitDelta]
    norm_num
  · simp only [calcAndPrintTransitTime, TransitStats.init, transitDelta]
    split
    · rw [min_eq_left (by linarith)]
    · rw [min_eq_right (by linarith)]
  · simp only [calcAndPrintTransitTime, TransitStats.init, transitDelta]
    split
    · rw [max_eq_left (by linarith)]
    · rw [max_eq_right (by linarith)]

set_option maxRecDepth 100000 in
theorem idle_run_from_zero :
    (publisherLoop 4 idleEnv defaultSendPeriod 3 3 zeroSample 0).2 = true ∧
      (publisherLoop 4 idleEnv defaultSendPeriod 3 3 zeroSample 0).1.now = 12000000000 := by
  decide

set_option maxRecDepth 100000 in
theorem idle_run_from_11ns :
    (publisherLoop 4 idleEnv defaultSendPeriod 3 3 zeroSample 11).1.now = 12000000010 := by
  decide

set_option maxRecDepth 100000 in
theorem busy_run_starts :
    (publisherLoop 8 busyEnv defaultSendPeriod 0 0 zeroSample 1000).1.now = 1000 ∧
      (publisherLoop 8 busyEnv defaultSendPeriod 0 1 zeroSample 1000).1.now = 4000001000 ∧
      (publisherLoop 8 busyEnv defaultSendPeriod 0 2 zeroSample 1000).1.now = 8000000999 := by
  decide

set_option maxRecDepth 100000 in
theorem late_run_value :
    Dbl.ltb (timeSleepS (timeToDouble (get_current_time 1819361990248568862))
      (durationToSeconds { sec := 1, nanosec := 1000000 }) 0
      (get_current_time (1819361990248568862 + 1000999975))) (Dbl.ofInt 0) = true := by
  decide

set_option maxRecDepth 100000 in
theorem late_run_sleeps :
    (publisherLoop 8 lateEnv { sec := 1, nanosec := 1000000 } 0 1 zeroSample
      1819361990248568862).1.sleeps = [{ sec := 0, nanosec := 4294967058 }] := by
  decide

set_option maxRecDepth 100000 in
theorem late_run_now :
    (publisherLoop 8 lateEnv { sec := 1, nanosec := 1000000 } 0 1 zeroSample
      1819361990248568862).1.now = 1819361990248568862 + 1001000000 + 4294967033 := by
  decide

theorem busyEnv_within_period (k : Nat) :
    ((busyEnv.fillDur k + busyEnv.writeDur k : Nat) : Int) + 6000 ≤
      defaultSendPeriod.sec * 1000000000 + (defaultSendPeriod.nanosec : Int) := by
  have hs : defaultSendPeriod.sec = 4 := rfl
  have hn : defaultSendPeriod.nanosec = 0 := rfl
  have hf : busyEnv.fillDur k = 1000000000 * (k % 2) := rfl
  have hw : busyEnv.writeDur k = 1000000000 + 500000000 * (k % 3) := rfl
  rw [hs, hn, hf, hw]
  push_cast
  omega

theorem busyEnv_on_time (M : Nat) (sample0 : CameraImageData) (t0 k : Nat) (hk : k < 3)
    (ht0 : t0 ≤ 1000000000) :
    (((publisherLoop M busyEnv defaultSendPeriod 0 k sample0 t0).1.now +
        busyEnv.fillDur k + busyEnv.writeDur k : Nat) : Int) + 3000 ≤
      (t0 : Int) + (defaultSendPeriod.sec * 1000000000 + (defaultSendPeriod.nanosec : Int)) *
        ((k : Int) + 1) := by
  rw [publisherLoop_eq M busyEnv defaultSendPeriod 0 k sample0 t0 (Or.inl rfl)]
  have hs : defaultSendPeriod.sec = 4 := rfl
  have hn : defaultSendPeriod.nanosec = 0 := rfl
  have h1 := abs_le.mp (cyclesFrom_within_period M busyEnv defaultSendPeriod sample0 t0
    (by decide) (by decide) busyEnv_within_period k (by omega)
    (by
      rw [hs, hn]
      push_cast
      omega))
  have h2 := busyEnv_within_period k
  rw [hs, hn] at h1 h2 ⊢
  push_cast at h1 h2 ⊢
  omega

/-! ## Facts about the number of cycles -/

/-- With a positive `sample_count = n` and enough fuel the loop is left after exactly the
cycles `count, ..., n - 1`. -/
theorem mainLoop_finite (M : Nat) (env : PubEnv) (tb sp : Dbl) (n : Nat) (hn : 0 < n)
    (fuel : Nat) : ∀ (count : Nat) (st : PubState), count ≤ n → n - count ≤ fuel →
      mainLoop M env tb sp (n : Int) fuel count st =
        (cyclesFrom M env tb sp count st (n - count), true) := by
  induction fuel with
  | zero =>
    intro count st hc hf
    have hcn : count = n := by omega
    subst hcn
    have hcond : ¬ (((count : Nat) : Int) = 0 ∨ ((count : Nat) : Int) < ((count : Nat) : Int)) := by
      omega
    have hne : count ≠ 0 := by omega
    simp [mainLoop, hne, cyclesFrom]
  | succ fuel ih =>
    intro count st hc hf
    rw [mainLoop]
    by_cases hlt : count < n
    · have hcond : ((n : Nat) : Int) = 0 ∨ ((count : Nat) : Int) < ((n : Nat) : Int) := by
        right
        exact_mod_cast hlt
      rw [if_pos hcond, ih (count + 1) _ (by omega) (by omega)]
      have e : n - count = (n - (count + 1)) + 1 := by omega
      rw [e, cyclesFrom_succ_front]
    · have hcn : count = n := by omega
      subst hcn
      have hcond : ¬ (((count : Nat) : Int) = 0 ∨
          ((count : Nat) : Int) < ((count : Nat) : Int)) := by omega
      rw [if_neg hcond]
      simp [cyclesFrom]

theorem cyclesFrom_retcodes (M : Nat) (env : PubEnv) (tb sp : Dbl) (sample0 : CameraImageData)
    (t0 n : Nat) :
    (cyclesFrom M env tb sp 0 (PubState.init sample0 t0) n).written.map Prod.snd =
      (List.range n).map env.writeRet := by
  induction n with
  | zero => simp [cyclesFrom, PubState.init]
  | succ n ih =>
    simp only [cyclesFrom, publishCycle, List.map_append, List.map_cons, List.map_nil]
    rw [ih, List.range_succ, List.map_append, Nat.zero_add]
    rfl

theorem cyclesFrom_errors (M : Nat) (env : PubEnv) (tb sp : Dbl) (sample0 : CameraImageData)
    (t0 n : Nat) :
    (cyclesFrom M env tb sp 0 (PubState.init sample0 t0) n).errors =
      ((List.range n).map env.writeRet).filter (fun rc => decide (rc ≠ 0)) := by
  induction n with
  | zero => simp [cyclesFrom, PubState.init]
  | succ n ih =>
    simp only [cyclesFrom, publishCycle]
    rw [ih, List.range_succ, List.map_append, List.filter_append, Nat.zero_add]
    by_cases h : env.writeRet n = 0
    · simp [h]
    · simp [h]

/-! ## The LFSR step as a linear bijection -/

theorem lfsrStep_eq_div (x : Nat) :
    lfsrStep x = (x / 2) ^^^ (if x % 2 = 1 then 0xD0000001 else 0) := by
  rcases Nat.mod_two_eq_zero_or_one x with h | h
  · rw [lfsrStep_even x h, if_neg (by omega), Nat.shiftRight_eq_div_pow]
    simp
  · rw [lfsrStep_odd x h, if_pos h, Nat.shiftRight_eq_div_pow]

theorem lfsrStep_xor (x y : Nat) : lfsrStep (x ^^^ y) = lfsrStep x ^^^ lfsrStep y := by
  rw [lfsrStep_eq_div, lfsrStep_eq_div x, lfsrStep_eq_div y, Nat.xor_div_two,
    Nat.xor_mod_two_eq]
  rcases Nat.mod_two_eq_zero_or_one x with hx | hx <;>
    rcases Nat.mod_two_eq_zero_or_one y with hy | hy
  · rw [if_neg (by omega), if_neg (by omega), if_neg (by omega)]
    simp
  · rw [if_pos (by omega), if_neg (by omega), if_pos (by omega)]
    simp [Nat.xor_assoc]
  · rw [if_pos (by omega), if_pos (by omega), if_neg (by omega)]
    simp only [Nat.xor_zero]
    ac_rfl
  · rw [if_neg (by omega), if_pos (by omega), if_pos (by omega)]
    have e : (x / 2 ^^^ 0xD0000001) ^^^ (y / 2 ^^^ 0xD0000001) =
        (x / 2 ^^^ y / 2) ^^^ (0xD0000001 ^^^ 0xD0000001) := by ac_rfl
    rw [e, Nat.xor_self]

theorem xor_tap_ge (a : Nat) (ha : a < 2 ^ 31) : 2 ^ 31 ≤ a ^^^ 0xD0000001 := by
  apply Nat.testBit_implies_ge
  rw [Nat.testBit_xor, Nat.testBit_lt_two_pow ha]
  decide

theorem lfsrStep_injective (x y : Nat) (hx : x < 2 ^ 32) (hy : y < 2 ^ 32)
    (h : lfsrStep x = lfsrStep y) : x = y := by
  rw [lfsrStep_eq_div, lfsrStep_eq_div y] at h
  have hx2 : x / 2 < 2 ^ 31 := by omega
  have hy2 : y / 2 < 2 ^ 31 := by omega
  rcases Nat.mod_two_eq_zero_or_one x with hxp | hxp <;>
    rcases Nat.mod_two_eq_zero_or_one y with hyp | hyp
  · rw [if_neg (by omega), if_neg (by omega)] at h
    simp only [Nat.xor_zero] at h
    omega
  · rw [if_neg (by omega), if_pos hyp] at h
    have := xor_tap_ge (y / 2) hy2
    simp only [Nat.xor_zero] at h
    omega
  · rw [if_pos hxp, if_neg (by omega)] at h
    have := xor_tap_ge (x / 2) hx2
    simp only [Nat.xor_zero] at h
    omega
  · rw [if_pos hxp, if_pos hyp] at h
    have := Nat.xor_left_injective h
    omega

/-! ## Facts about the bandwidth divisor -/

theorem calcAllIEEE_concat (M : Nat) (st : TransitStatsIEEE)
    (l : List (DDS_Time_t × DDS_Time_t)) (p : DDS_Time_t × DDS_Time_t) :
    calcAllIEEE M st (l ++ [p]) =
      ((calcAndPrintTransitTimeIEEE M (calcAllIEEE M st l).1 p.1 p.2).1,
        (calcAllIEEE M st l).2 ++
          [(calcAndPrintTransitTimeIEEE M (calcAllIEEE M st l).1 p.1 p.2).2]) := by
  simp [calcAllIEEE, List.foldl_append]

/-- Once latched to a value that does not compare equal to zero, `tStart_s` never
changes. -/
theorem calcAllIEEE_tStart (M : Nat) (st : TransitStatsIEEE)
    (h : Dbl.eqb st.tStart_s (Dbl.ofInt 0) = false) (l : List (DDS_Time_t × DDS_Time_t)) :
    (calcAllIEEE M st l).1.tStart_s = st.tStart_s := by
  induction l using List.reverseRecOn with
  | nil => rfl
  | append_singleton l p ih =>
    rw [calcAllIEEE_concat]
    simp only [calcAndPrintTransitTimeIEEE]
    rw [ih, h]
    rfl

theorem Dbl.eqb_zero_false (x : Dbl) (h : x.val ≠ 0) : Dbl.eqb x (Dbl.ofInt 0) = false := by
  rw [← Bool.not_eq_true, Dbl.eqb_iff, Dbl.val_zero]
  exact h

theorem Dbl.eqb_zero_self : Dbl.eqb (Dbl.ofInt 0) (Dbl.ofInt 0) = true := by
  rw [Dbl.eqb_iff]

/-- The first call latches `tStart_s` to its `tReceive_s`. -/
theorem calcIEEE_first_tStart (M : Nat) (tSend1 tReceive1 : DDS_Time_t) :
    (calcAndPrintTransitTimeIEEE M TransitStatsIEEE.init tSend1 tReceive1).1.tStart_s =
      timeToDouble tReceive1 := by
  simp only [calcAndPrintTransitTimeIEEE, TransitStatsIEEE.init]
  rw [Dbl.eqb_zero_self]
  rfl

theorem calcIEEE_first_divisor (M : Nat) (tSend1 tReceive1 : DDS_Time_t) :
    (calcAndPrintTransitTimeIEEE M TransitStatsIEEE.init tSend1 tReceive1).2.bwDivisor =
      Dbl.sub (timeToDouble tReceive1) (timeToDouble tReceive1) := by
  simp only [calcAndPrintTransitTimeIEEE, TransitStatsIEEE.init]
  rw [Dbl.eqb_zero_self]
  rfl

/-- The divisor of a later call is the `double` difference of its `tReceive_s` and that of
the first call. -/
theorem calcIEEE_later_divisor (M : Nat) (tSend1 tReceive1 : DDS_Time_t)
    (mid : List (DDS_Time_t × DDS_Time_t)) (tSend tReceive : DDS_Time_t)
    (h1 : (timeToDouble tReceive1).val ≠ 0) :
    (calcAndPrintTransitTimeIEEE M
      (calcAllIEEE M
        (calcAndPrintTransitTimeIEEE M TransitStatsIEEE.init tSend1 tReceive1).1 mid).1
      tSend tReceive).2.bwDivisor =
      Dbl.sub (timeToDouble tReceive) (timeToDouble tReceive1) := by
  have hne := Dbl.eqb_zero_false (timeToDouble tReceive1) h1
  have hstart := calcIEEE_first_tStart M tSend1 tReceive1
  have hk := calcAllIEEE_tStart M
    (calcAndPrintTransitTimeIEEE M TransitStatsIEEE.init tSend1 tReceive1).1
    (by rw [hstart]; exact hne) mid
  rw [hstart] at hk
  simp only [calcAndPrintTransitTimeIEEE] at hk ⊢
  rw [hk, hne]
  rfl

set_option maxRecDepth 100000 in
theorem epoch_stamps_same_double :
    timeToDouble { sec := 1700000000, nanosec := 1 } =
      timeToDouble { sec := 1700000000, nanosec := 0 } := by
  decide

set_option maxRecDepth 100000 in
theorem epoch_stamp_nonzero : (timeToDouble { sec := 1700000000, nanosec := 0 }).val ≠ 0 := by
  rw [Ne, Dbl.val_eq_zero_iff]
  decide

set_option maxRecDepth 100000 in
theorem small_stamp_nonzero : (timeToDouble { sec := 100, nanosec := 500000000 }).val ≠ 0 := by
  rw [Ne, Dbl.val_eq_zero_iff]
  decide

/-! ## Tables of linear maps -/

theorem two_mul_xor (x y : Nat) : 2 * (x ^^^ y) = 2 * x ^^^ 2 * y := by
  apply Nat.eq_of_testBit_eq
  intro i
  cases i with
  | zero => simp [Nat.testBit_zero, Nat.xor_mod_two_eq]
  | succ i =>
    rw [Nat.testBit_succ, Nat.testBit_xor, Nat.testBit_succ, Nat.testBit_succ]
    simp

theorem bit_add_two_mul (b m : Nat) (hb : b < 2) : b + 2 * m = b ^^^ 2 * m := by
  apply Nat.eq_of_testBit_eq
  intro i
  cases i with
  | zero =>
    simp only [Nat.testBit_zero, Nat.xor_mod_two_eq]
  | succ i =>
    rw [Nat.testBit_succ, Nat.testBit_succ, Nat.xor_div_two]
    have e1 : (b + 2 * m) / 2 = m := by omega
    have e2 : b / 2 = 0 := by omega
    have e3 : 2 * m / 2 = m := by omega
    rw [e1, e2, e3, Nat.zero_xor]

theorem mod_two_pow_succ_split (x n : Nat) :
    x % 2 ^ (n + 1) = (x % 2) ^^^ 2 * ((x / 2) % 2 ^ n) := by
  rw [← bit_add_two_mul _ _ (Nat.mod_lt x (by decide)), pow_succ', Nat.mod_mul]

theorem IsXorLinear.map_zero {f : Nat → Nat} (hf : IsXorLinear f) : f 0 = 0 := by
  have h := hf 0 0
  rw [Nat.xor_self] at h
  have h2 : f 0 ^^^ f 0 = 0 := Nat.xor_self _
  rw [h2] at h
  exact h

theorem IsXorLinear.comp {f g : Nat → Nat} (hf : IsXorLinear f) (hg : IsXorLinear g) :
    IsXorLinear (f ∘ g) := by
  intro x y
  simp only [Function.comp_apply]
  rw [hg, hf]

theorem IsXorLinear.double {f : Nat → Nat} (hf : IsXorLinear f) :
    IsXorLinear (fun y => f (2 * y)) := by
  intro x y
  simp only
  rw [two_mul_xor, hf]

theorem IsXorLinear.iterate {f : Nat → Nat} (hf : IsXorLinear f) (n : Nat) :
    IsXorLinear (f^[n]) := by
  induction n with
  | zero => intro x y; rfl
  | succ n ih =>
    rw [Function.iterate_succ]
    exact ih.comp hf

theorem applyTable_tableOf (n : Nat) : ∀ (f : Nat → Nat), IsXorLinear f → ∀ x,
    applyTable (tableOf f n) x = f (x % 2 ^ n) := by
  induction n with
  | zero =>
    intro f hf x
    simp [applyTable, tableOf, Nat.mod_one, hf.map_zero]
  | succ n ih =>
    intro f hf x
    rw [tableOf, applyTable, ih _ hf.double, mod_two_pow_succ_split, hf]
    rcases Nat.mod_two_eq_zero_or_one x with h | h
    · rw [h, if_neg (by decide), hf.map_zero]
    · rw [h, if_pos rfl]

theorem tableOf_eq_map (n : Nat) : ∀ (f : Nat → Nat),
    tableOf f n = (List.range n).map (fun i => f (2 ^ i)) := by
  induction n with
  | zero => intro f; rfl
  | succ n ih =>
    intro f
    rw [tableOf, ih, List.range_succ_eq_map, List.map_cons, List.map_map]
    congr 1
    apply List.map_congr_left
    intro i _
    simp only [Function.comp_apply, Nat.succ_eq_add_one, pow_succ']

theorem sqTable_tableOf (n : Nat) (f : Nat → Nat) (hf : IsXorLinear f)
    (hlt : ∀ x, x < 2 ^ n → f x < 2 ^ n) :
    sqTable (tableOf f n) = tableOf (f ∘ f) n := by
  unfold sqTable
  rw [tableOf_eq_map n (f ∘ f)]
  conv_lhs => rw [tableOf_eq_map n f]
  rw [List.map_map]
  apply List.map_congr_left
  intro i hi
  have hin : i < n := List.mem_range.mp hi
  simp only [Function.comp_apply]
  rw [← tableOf_eq_map n f, applyTable_tableOf n f hf,
    Nat.mod_eq_of_lt (hlt _ (Nat.pow_lt_pow_right (by decide) hin))]

theorem powApply_tableOf (n b : Nat) : ∀ (g : Nat → Nat), IsXorLinear g →
    (∀ x, x < 2 ^ n → g x < 2 ^ n) → ∀ (k v : Nat), k < 2 ^ b → v < 2 ^ n →
    powApply b (tableOf g n) k v = g^[k] v := by
  induction b with
  | zero =>
    intro g _ _ k v hk _
    have : k = 0 := by omega
    subst this
    rfl
  | succ b ih =>
    intro g hg hlt k v hk hv
    rw [powApply, sqTable_tableOf n g hg hlt, applyTable_tableOf n g hg, Nat.mod_eq_of_lt hv]
    have hgg : ∀ x, x < 2 ^ n → (g ∘ g) x < 2 ^ n := fun x hx => hlt _ (hlt _ hx)
    have hk2 : k / 2 < 2 ^ b := by
      rw [pow_succ] at hk
      omega
    have hfun : (g ∘ g) = g^[2] := rfl
    rcases Nat.mod_two_eq_zero_or_one k with h | h
    · rw [if_neg (by omega), ih (g ∘ g) (hg.comp hg) hgg (k / 2) v hk2 hv, hfun,
        ← Function.iterate_mul]
      congr 1
      omega
    · rw [if_pos h, ih (g ∘ g) (hg.comp hg) hgg (k / 2) (g v) hk2 (hlt v hv), hfun,
        ← Function.iterate_mul, ← Function.iterate_succ_apply]
      congr 1
      omega

/-! ## The period of the LFSR -/

theorem lfsrStep_linear : IsXorLinear lfsrStep := lfsrStep_xor

theorem lfsrStep_iterate_linear (n : Nat) : IsXorLinear (lfsrStep^[n]) :=
  lfsrStep_linear.iterate n

/-- The table of `lfsrStep` iterated `2 ^ k` times is the `k`-th square of the table of
`lfsrStep`. -/
theorem sqTable_iterate (k : Nat) :
    sqTable^[k] (tableOf lfsrStep 32) = tableOf (lfsrStep^[2 ^ k]) 32 := by
  induction k with
  | zero => rfl
  | succ k ih =>
    rw [Function.iterate_succ_apply', ih,
      sqTable_tableOf 32 _ (lfsrStep_iterate_linear _) (fun x hx => lfsrStep_iterate_lt x hx _),
      ← Function.iterate_add, pow_succ, Nat.mul_two]

set_option maxRecDepth 100000 in
theorem sqTable_32_fixed : sqTable^[32] (tableOf lfsrStep 32) = tableOf lfsrStep 32 := by
  decide

set_option maxRecDepth 100000 in
theorem powApply_cofactors :
    powApply 32 (tableOf lfsrStep 32) 1431655765 1 ≠ 1 ∧
    powApply 32 (tableOf lfsrStep 32) 858993459 1 ≠ 1 ∧
    powApply 32 (tableOf lfsrStep 32) 252645135 1 ≠ 1 ∧
    powApply 32 (tableOf lfsrStep 32) 16711935 1 ≠ 1 ∧
    powApply 32 (tableOf lfsrStep 32) 65535 1 ≠ 1 := by
  decide

theorem lfsrStep_pow32 (x : Nat) (hx : x < 2 ^ 32) : lfsrStep^[2 ^ 32] x = lfsrStep x := by
  have h1 := applyTable_tableOf 32 (lfsrStep^[2 ^ 32]) (lfsrStep_iterate_linear _) x
  have h2 := applyTable_tableOf 32 lfsrStep lfsrStep_linear x
  rw [← sqTable_iterate 32, sqTable_32_fixed, h2, Nat.mod_eq_of_lt hx] at h1
  exact h1.symm

theorem lfsrStep_full_period (x : Nat) (hx : x < 2 ^ 32) : lfsrStep^[lfsrPeriod] x = x := by
  have h := lfsrStep_pow32 x hx
  have e : 2 ^ 32 = lfsrPeriod + 1 := by decide
  rw [e, Function.iterate_succ_apply'] at h
  exact lfsrStep_injective _ _ (lfsrStep_iterate_lt x hx _) hx h

theorem lfsrStep_cofactor (k : Nat) (hk : k < 2 ^ 32) :
    lfsrStep^[k] 1 = powApply 32 (tableOf lfsrStep 32) k 1 :=
  (powApply_tableOf 32 32 lfsrStep lfsrStep_linear lfsrStep_lt k 1 hk (by decide)).symm

theorem lfsrPeriod_prime_factor (q : Nat) (hq : q.Prime) (hdvd : q ∣ lfsrPeriod) :
    q = 3 ∨ q = 5 ∨ q = 17 ∨ q = 257 ∨ q = 65537 := by
  have e : lfsrPeriod = 3 * (5 * (17 * (257 * 65537))) := by decide
  have p3 : Nat.Prime 3 := by norm_num
  have p5 : Nat.Prime 5 := by norm_num
  have p17 : Nat.Prime 17 := by norm_num
  have p257 : Nat.Prime 257 := by norm_num
  have p65537 : Nat.Prime 65537 := by norm_num
  rw [e] at hdvd
  rcases hq.dvd_mul.mp hdvd with h | h
  · exact Or.inl ((Nat.prime_dvd_prime_iff_eq hq p3).mp h)
  rcases hq.dvd_mul.mp h with h | h
  · exact Or.inr (Or.inl ((Nat.prime_dvd_prime_iff_eq hq p5).mp h))
  rcases hq.dvd_mul.mp h with h | h
  · exact Or.inr (Or.inr (Or.inl ((Nat.prime_dvd_prime_iff_eq hq p17).mp h)))
  rcases hq.dvd_mul.mp h with h | h
  · exact Or.inr (Or.inr (Or.inr (Or.inl ((Nat.prime_dvd_prime_iff_eq hq p257).mp h))))
  · exact Or.inr (Or.inr (Or.inr (Or.inr ((Nat.prime_dvd_prime_iff_eq hq p65537).mp h))))

/-- The state `1` does not return to itself after `lfsrPeriod / q` steps, for any prime
factor `q` of `lfsrPeriod`. -/
theorem lfsrStep_cofactor_ne (q : Nat) (hq : q.Prime) (hdvd : q ∣ lfsrPeriod) :
    lfsrStep^[lfsrPeriod / q] 1 ≠ 1 := by
  obtain ⟨h3, h5, h17, h257, h65537⟩ := powApply_cofactors
  rcases lfsrPeriod_prime_factor q hq hdvd with h | h | h | h | h
  · subst h
    have e : lfsrPeriod / 3 = 1431655765 := by decide
    rw [e, lfsrStep_cofactor _ (by decide)]
    exact h3
  · subst h
    have e : lfsrPeriod / 5 = 858993459 := by decide
    rw [e, lfsrStep_cofactor _ (by decide)]
    exact h5
  · subst h
    have e : lfsrPeriod / 17 = 252645135 := by decide
    rw [e, lfsrStep_cofactor _ (by decide)]
    exact h17
  · subst h
    have e : lfsrPeriod / 257 = 16711935 := by decide
    rw [e, lfsrStep_cofactor _ (by decide)]
    exact h257
  · subst h
    have e : lfsrPeriod / 65537 = 65535 := by decide
    rw [e, lfsrStep_cofactor _ (by decide)]
    exact h65537

theorem minimalPeriod_one : Function.minimalPeriod lfsrStep 1 = lfsrPeriod := by
  have hper : Function.IsPeriodicPt lfsrStep lfsrPeriod 1 :=
    lfsrStep_full_period 1 (by decide)
  obtain ⟨c, hc⟩ := hper.minimalPeriod_dvd
  by_contra hne
  have hc1 : c ≠ 1 := by
    intro h
    rw [h, Nat.mul_one] at hc
    exact hne hc.symm
  obtain ⟨q, hq, hqc⟩ := Nat.exists_prime_and_dvd hc1
  obtain ⟨c2, hc2⟩ := hqc
  have hmul : lfsrPeriod = q * (Function.minimalPeriod lfsrStep 1 * c2) := by
    rw [hc, hc2]
    exact Nat.mul_left_comm _ _ _
  have hqN : q ∣ lfsrPeriod := ⟨Function.minimalPeriod lfsrStep 1 * c2, hmul⟩
  have hdiv : lfsrPeriod / q = Function.minimalPeriod lfsrStep 1 * c2 :=
    Nat.div_eq_of_eq_mul_right hq.pos hmul
  have hper2 : Function.IsPeriodicPt lfsrStep (lfsrPeriod / q) 1 := by
    rw [hdiv]
    exact (Function.isPeriodicPt_minimalPeriod lfsrStep 1).trans_dvd (Dvd.intro _ rfl)
  exact lfsrStep_cofactor_ne q hq hqN hper2

/-- A nonzero state of minimal period `lfsrPeriod` reaches every nonzero 32-bit state. -/
theorem orbit_covers (x : Nat) (hx0 : 0 < x) (hx : x < 2 ^ 32)
    (hmin : Function.minimalPeriod lfsrStep x = lfsrPeriod) (y : Nat) (hy0 : 0 < y)
    (hy : y < 2 ^ 32) : ∃ j, j < lfsrPeriod ∧ lfsrStep^[j] x = y := by
  have hN : lfsrPeriod + 1 = 2 ^ 32 := by decide
  have hsub : Finset.image (fun j => lfsrStep^[j] x) (Finset.range lfsrPeriod) ⊆
      Finset.Icc 1 lfsrPeriod := by
    intro z hz
    obtain ⟨j, _, rfl⟩ := Finset.mem_image.mp hz
    have h1 := lfsrStep_iterate_ne_zero x hx0 hx j
    have h2 := lfsrStep_iterate_lt x hx j
    rw [Finset.mem_Icc]
    constructor
    · exact Nat.pos_of_ne_zero h1
    · omega
  have hinj : Set.InjOn (fun j => lfsrStep^[j] x) (↑(Finset.range lfsrPeriod)) := by
    rw [Finset.coe_range, ← hmin]
    exact Function.iterate_injOn_Iio_minimalPeriod
  have hcard : (Finset.Icc 1 lfsrPeriod).card ≤
      (Finset.image (fun j => lfsrStep^[j] x) (Finset.range lfsrPeriod)).card := by
    rw [Finset.card_image_of_injOn hinj, Finset.card_range, Nat.card_Icc]
    omega
  have heq := Finset.eq_of_subset_of_card_le hsub hcard
  have hyin : y ∈ Finset.Icc 1 lfsrPeriod := by
    rw [Finset.mem_Icc]
    omega
  rw [← heq] at hyin
  obtain ⟨j, hj, hjy⟩ := Finset.mem_image.mp hyin
  exact ⟨j, Finset.mem_range.mp hj, hjy⟩

theorem minimalPeriod_nonzero (x : Nat) (hx0 : 0 < x) (hx : x < 2 ^ 32) :
    Function.minimalPeriod lfsrStep x = lfsrPeriod := by
  obtain ⟨j, _, hj⟩ := orbit_covers 1 (by decide) (by decide) minimalPeriod_one x hx0 hx
  have hmem : (1 : Nat) ∈ Function.periodicPts lfsrStep :=
    Function.mk_mem_periodicPts (by decide : 0 < lfsrPeriod)
      (lfsrStep_full_period 1 (by decide))
  rw [← hj, Function.minimalPeriod_apply_iterate hmem, minimalPeriod_one]

/-! ## The claims -/

/-- C1 (round trip): for every 32-bit generator state `s` and every `MAX_IMAGE_SIZE = M`
that is a positive multiple of 4, the fill loop leaves the register `M / 4` steps further,
the buffer it produced is accepted by `checkLfsrDataInArray`, and every word of that buffer
is a 32-bit value. -/
theorem fill_then_check_roundtrip (s M : Nat) (data : Nat → Nat) (hs : s < 2 ^ 32)
    (hM : 0 < M) (h4 : M % 4 = 0) :
    (fillLoop M 0 s data).2 = lfsrStep^[M / 4] s ∧
      checkLfsrDataInArray M (fillLoop M 0 s data).1 = true ∧
      ∀ k, 4 * k < M → (fillLoop M 0 s data).1 k < 2 ^ 32 := by
  refine ⟨?_, ?_, ?_⟩
  · have e : (M - 0 + 3) / 4 = M / 4 := by omega
    rw [fillLoop_lfsr, e]
  · unfold checkLfsrDataInArray
    rw [checkLfsrTrace_fill]
  · intro k hk
    rw [fill_word M s data k hk]
    exact lfsrStep_iterate_lt s hs k

theorem fill_then_check_roundtrip_witness :
    (fillLoop 8 0 LFSR_SEED (fun _ => 0)).2 = lfsrStep^[8 / 4] LFSR_SEED ∧
      checkLfsrDataInArray 8 (fillLoop 8 0 LFSR_SEED (fun _ => 0)).1 = true ∧
      ∀ k, 4 * k < 8 → (fillLoop 8 0 LFSR_SEED (fun _ => 0)).1 k < 2 ^ 32 :=
  fill_then_check_roundtrip LFSR_SEED 8 (fun _ => 0) (by decide) (by decide) (by decide)

/-- C2 (corruption detection): in a buffer produced by the fill loop, flipping bit `b` of
word `k` (`1 ≤ k < M / 4`, `b < 32`) makes `checkLfsrDataInArray` return `false`; the scan
returns at word `k` with the corrupted word as actual value and the LFSR step of word
`k - 1` as expected value, the two differ, and words `1 .. k - 1` satisfy the check; the
corrupted word is still a 32-bit value. -/
theorem single_bit_flip_detected (s M : Nat) (data : Nat → Nat) (k b : Nat)
    (hs : s < 2 ^ 32) (h4 : M % 4 = 0) (hk1 : 1 ≤ k) (hk : k < M / 4) (hb : b < 32) :
    checkLfsrDataInArray M
        (Function.update (fillLoop M 0 s data).1 k ((fillLoop M 0 s data).1 k ^^^ 2 ^ b))
      = false ∧
    checkLfsrTrace M
        (Function.update (fillLoop M 0 s data).1 k ((fillLoop M 0 s data).1 k ^^^ 2 ^ b))
      = CheckOutcome.mismatch k ((fillLoop M 0 s data).1 k ^^^ 2 ^ b)
          (lfsrStep ((fillLoop M 0 s data).1 (k - 1))) ∧
    lfsrStep ((fillLoop M 0 s data).1 (k - 1)) ≠ (fillLoop M 0 s data).1 k ^^^ 2 ^ b ∧
    (∀ m, 1 ≤ m → m < k →
      Function.update (fillLoop M 0 s data).1 k ((fillLoop M 0 s data).1 k ^^^ 2 ^ b) m =
        lfsrStep (Function.update (fillLoop M 0 s data).1 k
          ((fillLoop M 0 s data).1 k ^^^ 2 ^ b) (m - 1))) ∧
    (fillLoop M 0 s data).1 k ^^^ 2 ^ b < 2 ^ 32 := by
  have hk4 : 4 * k < M := by omega
  have ht := checkLfsrTrace_flip M s data k _ hk1 hk4 (xor_two_pow_ne _ b)
  refine ⟨?_, ht, ?_, ?_, ?_⟩
  case refine_4 =>
    apply Nat.xor_lt_two_pow
    · rw [fill_word M s data k hk4]
      exact lfsrStep_iterate_lt s hs k
    · exact Nat.pow_lt_pow_right (by decide) hb
  · unfold checkLfsrDataInArray
    rw [ht]
  · obtain ⟨n0, rfl⟩ : ∃ n0, k = n0 + 1 := ⟨k - 1, by omega⟩
    rw [Nat.add_sub_cancel, ← fill_word_succ M s data n0 (by omega)]
    exact (xor_two_pow_ne _ b).symm
  · intro m hm1 hmk
    obtain ⟨n, rfl⟩ : ∃ n, m = n + 1 := ⟨m - 1, by omega⟩
    rw [Function.update_noteq (by omega), Nat.add_sub_cancel,
      Function.update_noteq (by omega)]
    exact fill_word_succ M s data n (by omega)

theorem single_bit_flip_detected_witness :
    checkLfsrTrace 16
        (Function.update (fillLoop 16 0 LFSR_SEED (fun _ => 0)).1 2
          ((fillLoop 16 0 LFSR_SEED (fun _ => 0)).1 2 ^^^ 2 ^ 5))
      = CheckOutcome.mismatch 2 ((fillLoop 16 0 LFSR_SEED (fun _ => 0)).1 2 ^^^ 2 ^ 5)
          (lfsrStep ((fillLoop 16 0 LFSR_SEED (fun _ => 0)).1 (2 - 1))) :=
  (single_bit_flip_detected LFSR_SEED 16 (fun _ => 0) 2 5 (by decide) (by decide) (by decide)
    (by decide) (by decide)).2.1

/-- C3 (zero is unreachable): for every nonzero 32-bit value `x` the LFSR step of `x` is
nonzero, hence so is the state after any number `n` of steps; and no word of any frame
handed to `write` by the publisher (seeded with `0x55555555`) is zero. -/
theorem lfsr_never_zero (x n : Nat) (hx0 : 0 < x) (hx : x < 2 ^ 32)
    (M : Nat) (env : PubEnv) (send_period : DDS_Duration_t) (sample_count : Int) (N : Nat)
    (sample0 : CameraImageData) (t0 k i : Nat)
    (hrun : sample_count = 0 ∨ (N : Int) ≤ sample_count) (hk : k < N) (hi : 4 * i < M) :
    lfsrStep x ≠ 0 ∧ lfsrStep^[n] x ≠ 0 ∧
      ∃ r, (publisherLoop M env send_period sample_count N sample0 t0).1.written[k]? = some r ∧
        r.1.data i ≠ 0 := by
  refine ⟨lfsrStep_ne_zero x hx0 hx, lfsrStep_iterate_ne_zero x hx0 hx n, ?_⟩
  rw [publisherLoop_eq M env send_period sample_count N sample0 t0 hrun]
  obtain ⟨r, hr, _, _, hd, _⟩ := cyclesFrom_written M env
    (timeToDouble (get_current_time t0)) (durationToSeconds send_period) sample0 t0 N k hk
  refine ⟨r, hr, ?_⟩
  rw [hd i hi]
  exact lfsrStep_iterate_ne_zero LFSR_SEED (by decide) (by decide) _

theorem lfsr_never_zero_witness :
    lfsrStep 1 ≠ 0 ∧ lfsrStep^[5] 1 ≠ 0 ∧
      ∃ r, (publisherLoop 8 idleEnv defaultSendPeriod 0 2 zeroSample 0).1.written[1]? = some r ∧
        r.1.data 1 ≠ 0 :=
  lfsr_never_zero 1 5 (by decide) (by decide) 8 idleEnv defaultSendPeriod 0 2 zeroSample 0 1 1
    (by decide) (by decide) (by decide)

/-- C4 (branchless step): the masked-XOR update of the source equals the conditional
update of the specification for every register value, and iteration `k` of the fill loop
stores the register value it finds, `lfsrStep^[k] s`, before advancing it: word 0 is the
start value itself and the body leaves the stepped value in the register. -/
theorem branchless_step_eq_conditional (x s M k : Nat) (data : Nat → Nat) (hk : 4 * k < M) :
    lfsrStep x = lfsrNextSpec x ∧
      (fillLoop M 0 s data).1 k = lfsrStep^[k] s ∧
      (fillBody (4 * k) x data).1 k = x ∧
      (fillBody (4 * k) x data).2 = lfsrStep x := by
  refine ⟨lfsrStep_eq_spec x, fill_word M s data k hk, ?_, rfl⟩
  simp [fillBody]

theorem branchless_step_eq_conditional_witness :
    lfsrStep 3 = lfsrNextSpec 3 ∧
      (fillLoop 8 0 LFSR_SEED (fun _ => 0)).1 1 = lfsrStep^[1] LFSR_SEED ∧
      (fillBody (4 * 1) 3 (fun _ => 0)).1 1 = 3 ∧
      (fillBody (4 * 1) 3 (fun _ => 0)).2 = lfsrStep 3 :=
  branchless_step_eq_conditional 3 LFSR_SEED 8 1 (fun _ => 0) (by decide)

/-- C5 (the generator is never reset): with `W = M / 4` words per frame (`M` a multiple of
4), after `N` cycles the register is `lfsrStep^[N * W] 0x55555555`, and word `i < W` of the
frame handed to `write` in cycle `n < N` is `lfsrStep^[n * W + i] 0x55555555`, whatever the
environment; a second run, in any other environment, writes the same word there. -/
theorem generator_never_reset (M : Nat) (env env2 : PubEnv)
    (send_period send_period2 : DDS_Duration_t) (sample_count sample_count2 : Int) (N : Nat)
    (sample0 sample2 : CameraImageData) (t0 t2 n i : Nat) (h4 : M % 4 = 0)
    (hrun : sample_count = 0 ∨ (N : Int) ≤ sample_count)
    (hrun2 : sample_count2 = 0 ∨ (N : Int) ≤ sample_count2) (hn : n < N) (hi : i < M / 4) :
    (publisherLoop M env send_period sample_count N sample0 t0).1.lfsr =
        lfsrStep^[N * (M / 4)] LFSR_SEED ∧
      ∃ r, (publisherLoop M env send_period sample_count N sample0 t0).1.written[n]? = some r ∧
        r.1.data i = lfsrStep^[n * (M / 4) + i] LFSR_SEED ∧
        ∃ r2, (publisherLoop M env2 send_period2 sample_count2 N sample2 t2).1.written[n]?
            = some r2 ∧ r2.1.data i = r.1.data i := by
  have hW : wordsPerFrame M = M / 4 := by unfold wordsPerFrame; omega
  rw [publisherLoop_eq M env send_period sample_count N sample0 t0 hrun,
    publisherLoop_eq M env2 send_period2 sample_count2 N sample2 t2 hrun2]
  obtain ⟨r, hr, _, _, hd, _⟩ := cyclesFrom_written M env
    (timeToDouble (get_current_time t0)) (durationToSeconds send_period) sample0 t0 N n hn
  obtain ⟨r2, hr2, _, _, hd2, _⟩ := cyclesFrom_written M env2
    (timeToDouble (get_current_time t2)) (durationToSeconds send_period2) sample2 t2 N n hn
  refine ⟨?_, r, hr, ?_, r2, hr2, ?_⟩
  · rw [cyclesFrom_lfsr, hW]
  · rw [hd i (by omega), hW]
  · rw [hd i (by omega), hd2 i (by omega)]

theorem generator_never_reset_witness :
    (publisherLoop 8 idleEnv defaultSendPeriod 0 3 zeroSample 0).1.lfsr =
        lfsrStep^[3 * (8 / 4)] LFSR_SEED ∧
      ∃ r, (publisherLoop 8 idleEnv defaultSendPeriod 0 3 zeroSample 0).1.written[2]? = some r ∧
        r.1.data 1 = lfsrStep^[2 * (8 / 4) + 1] LFSR_SEED ∧
        ∃ r2, (publisherLoop 8 slowEnv defaultSendPeriod 3 3 zeroSample 7).1.written[2]?
            = some r2 ∧ r2.1.data 1 = r.1.data 1 :=
  generator_never_reset 8 idleEnv slowEnv defaultSendPeriod defaultSendPeriod 0 3 3
    zeroSample zeroSample 0 7 2 1 (by decide) (by decide) (by decide) (by decide) (by decide)

/-- C6 (sequence numbers): for `1 ≤ N < 2 ^ 32`, the first `N` cycles hand exactly `N`
records to `write`, their `seqnum` fields are `1, 2, ..., N` in this order, and the return
codes of the `write` calls, which are arbitrary, play no part in it. -/
theorem seqnums_are_one_to_N (M : Nat) (env : PubEnv) (send_period : DDS_Duration_t)
    (sample_count : Int) (N : Nat) (sample0 : CameraImageData) (t0 : Nat)
    (h1 : 1 ≤ N) (hN : N < 2 ^ 32) (hrun : sample_count = 0 ∨ (N : Int) ≤ sample_count) :
    (publisherLoop M env send_period sample_count N sample0 t0).1.written.length = N ∧
      (publisherLoop M env send_period sample_count N sample0 t0).1.written.map
          (fun r => r.1.seqnum) = List.range' 1 N ∧
      ∀ k, k < N → ∃ r,
        (publisherLoop M env send_period sample_count N sample0 t0).1.written[k]? = some r ∧
          r.1.seqnum = k + 1 ∧ r.2 = env.writeRet k := by
  rw [publisherLoop_eq M env send_period sample_count N sample0 t0 hrun]
  refine ⟨cyclesFrom_written_length _ _ _ _ _ _ _, cyclesFrom_seqnums _ _ _ _ _ _ _ hN, ?_⟩
  intro k hk
  obtain ⟨r, hr, hs, hw, _⟩ := cyclesFrom_written M env
    (timeToDouble (get_current_time t0)) (durationToSeconds send_period) sample0 t0 N k hk
  refine ⟨r, hr, ?_, hw⟩
  rw [hs]
  omega

theorem seqnums_are_one_to_N_witness :
    (publisherLoop 8 slowEnv defaultSendPeriod 0 3 zeroSample 0).1.written.map
        (fun r => r.1.seqnum) = List.range' 1 3 :=
  (seqnums_are_one_to_N 8 slowEnv defaultSendPeriod 0 3 zeroSample 0 (by decide) (by decide)
    (by decide)).2.1

/-- C7, as stated, fails: a first sample received one second before it was sent has delta
`-1` but the reported maximum is `0`; a first sample with delta `2000` has reported minimum
`1000`. -/
theorem first_sample_outside_sentinels :
    ((calcAndPrintTransitTime 4 TransitStats.init { sec := 100, nanosec := 0 }
        { sec := 99, nanosec := 0 }).2.lat = -1 ∧
      (calcAndPrintTransitTime 4 TransitStats.init { sec := 100, nanosec := 0 }
        { sec := 99, nanosec := 0 }).2.tMax = 0) ∧
    ((calcAndPrintTransitTime 4 TransitStats.init { sec := 0, nanosec := 0 }
        { sec := 2000, nanosec := 0 }).2.lat = 2000 ∧
      (calcAndPrintTransitTime 4 TransitStats.init { sec := 0, nanosec := 0 }
        { sec := 2000, nanosec := 0 }).2.tMin = 1000) := by
  simp only [calcAndPrintTransitTime, TransitStats.init, timeToSeconds]
  norm_num

/-- C7 (amended): after any non-empty sequence of fewer than `2 ^ 32` calls, with the deltas
`receive_i - send_i` in exact arithmetic and of any sign or size, the reported average is
their arithmetic mean, the reported minimum is the least of the deltas and the initial value
`1000`, and the reported maximum is the greatest of the deltas and the initial value `0`; so
minimum and maximum are those of the samples when every delta lies in `[0, 1000]`, and after
the very first call `avg = delta_1`, `min = min delta_1 1000`, `max = max delta_1 0`. -/
theorem running_stats_with_initial_values (M : Nat) (l : List (DDS_Time_t × DDS_Time_t))
    (hne : l ≠ []) (hlen : l.length < 2 ^ 32) :
    (∃ rep, (calcAll M TransitStats.init l).2.getLast? = some rep ∧
      rep.recv = l.length ∧
      rep.tAvg = (l.map transitDelta).sum / (l.length : ℚ) ∧
      (rep.tMin ≤ 1000 ∧ (∀ p ∈ l, rep.tMin ≤ transitDelta p) ∧
        (rep.tMin = 1000 ∨ ∃ p ∈ l, rep.tMin = transitDelta p)) ∧
      (0 ≤ rep.tMax ∧ (∀ p ∈ l, transitDelta p ≤ rep.tMax) ∧
        (rep.tMax = 0 ∨ ∃ p ∈ l, rep.tMax = transitDelta p)) ∧
      ((∀ p ∈ l, 0 ≤ transitDelta p ∧ transitDelta p ≤ 1000) →
        (∃ p ∈ l, rep.tMin = transitDelta p) ∧ (∃ p ∈ l, rep.tMax = transitDelta p))) ∧
    ∀ tSend tReceive : DDS_Time_t,
      (calcAndPrintTransitTime M TransitStats.init tSend tReceive).2.tAvg =
          transitDelta (tSend, tReceive) ∧
        (calcAndPrintTransitTime M TransitStats.init tSend tReceive).2.tMin =
          min (transitDelta (tSend, tReceive)) 1000 ∧
        (calcAndPrintTransitTime M TransitStats.init tSend tReceive).2.tMax =
          max (transitDelta (tSend, tReceive)) 0 := by
  refine ⟨?_, fun tSend tReceive => (first_report M tSend tReceive).2⟩
  obtain ⟨hsum, hcnt, ⟨hmin1, hmin2, hmin3⟩, ⟨hmax1, hmax2, hmax3⟩⟩ := calcAll_stats M l
  rw [Nat.mod_eq_of_lt hlen] at hcnt
  obtain ⟨l0, p0, rfl⟩ : ∃ l0 p0, l = l0 ++ [p0] := by
    rcases List.eq_nil_or_concat l with h | ⟨l0, p0, h⟩
    · exact absurd h hne
    · exact ⟨l0, p0, by simpa using h⟩
  obtain ⟨rep, hrep, _, hrecv, hmin, hmax, havg⟩ := calcAll_last M TransitStats.init l0 p0
  rw [← hmin] at hmin1 hmin2 hmin3
  rw [← hmax] at hmax1 hmax2 hmax3
  refine ⟨rep, hrep, by rw [hrecv, hcnt], by rw [havg, hsum, hcnt],
    ⟨hmin1, hmin2, hmin3⟩, ⟨hmax1, hmax2, hmax3⟩, ?_⟩
  intro hall
  have hp0 : p0 ∈ l0 ++ [p0] := by simp
  constructor
  · rcases hmin3 with h | h
    · refine ⟨p0, hp0, ?_⟩
      have h1 := hmin2 p0 hp0
      have h2 := (hall p0 hp0).2
      linarith
    · exact h
  · rcases hmax3 with h | h
    · refine ⟨p0, hp0, ?_⟩
      have h1 := hmax2 p0 hp0
      have h2 := (hall p0 hp0).1
      linarith
    · exact h

theorem running_stats_with_initial_values_witness :
    ∃ rep, (calcAll 4 TransitStats.init
        [({ sec := 100, nanosec := 0 }, { sec := 100, nanosec := 500000000 }),
         ({ sec := 200, nanosec := 0 }, { sec := 200, nanosec := 300000000 })]).2.getLast?
          = some rep ∧
      rep.recv = 2 :=
  match (running_stats_with_initial_values 4
      [({ sec := 100, nanosec := 0 }, { sec := 100, nanosec := 500000000 }),
       ({ sec := 200, nanosec := 0 }, { sec := 200, nanosec := 300000000 })]
      (by simp) (by decide)).1 with
  | ⟨rep, h1, h2, _⟩ => ⟨rep, h1, h2⟩

/-- C8 (worked example): from fresh statistics, a first sample with send `(100 s, 0 ns)` and
receive `(100 s, 500000000 ns)` reports the delta `1/2`; a second sample whose delta is
`3/10` then reports minimum `3/10`, maximum `1/2` and average `2/5`. -/
theorem worked_example_half_then_three_tenths (M : Nat) (tSend2 tReceive2 : DDS_Time_t)
    (h2 : transitDelta (tSend2, tReceive2) = 3 / 10) :
    (calcAndPrintTransitTime M TransitStats.init { sec := 100, nanosec := 0 }
        { sec := 100, nanosec := 500000000 }).2.lat = 1 / 2 ∧
      (calcAndPrintTransitTime M
        (calcAndPrintTransitTime M TransitStats.init { sec := 100, nanosec := 0 }
          { sec := 100, nanosec := 500000000 }).1 tSend2 tReceive2).2.lat = 3 / 10 ∧
      (calcAndPrintTransitTime M
        (calcAndPrintTransitTime M TransitStats.init { sec := 100, nanosec := 0 }
          { sec := 100, nanosec := 500000000 }).1 tSend2 tReceive2).2.tMin = 3 / 10 ∧
      (calcAndPrintTransitTime M
        (calcAndPrintTransitTime M TransitStats.init { sec := 100, nanosec := 0 }
          { sec := 100, nanosec := 500000000 }).1 tSend2 tReceive2).2.tMax = 1 / 2 ∧
      (calcAndPrintTransitTime M
        (calcAndPrintTransitTime M TransitStats.init { sec := 100, nanosec := 0 }
          { sec := 100, nanosec := 500000000 }).1 tSend2 tReceive2).2.tAvg = 2 / 5 := by
  have h1 : timeToSeconds { sec := 100, nanosec := 500000000 } -
      timeToSeconds { sec := 100, nanosec := 0 } = 1 / 2 := by
    simp only [timeToSeconds]
    norm_num
  unfold transitDelta at h2
  simp only at h2
  simp only [calcAndPrintTransitTime, TransitStats.init, h1, h2]
  norm_num

theorem worked_example_half_then_three_tenths_witness :
    (calcAndPrintTransitTime 4
        (calcAndPrintTransitTime 4 TransitStats.init { sec := 100, nanosec := 0 }
          { sec := 100, nanosec := 500000000 }).1 { sec := 200, nanosec := 0 }
          { sec := 200, nanosec := 300000000 }).2.tAvg = 2 / 5 :=
  (worked_example_half_then_three_tenths 4 { sec := 200, nanosec := 0 }
    { sec := 200, nanosec := 300000000 }
    (by simp only [transitDelta, timeToSeconds]; norm_num)).2.2.2.2

/-- C9, as stated, fails: with `send_period = {4,0}`, `sample_count = 3`, a clock that
only `sleep` advances and `time_begin = 0`, the loop is left with the clock at 12 s, not at
8 s.  The end is not always at exactly `time_begin + 12 s` either: started at
`time_begin = 11 ns` the same run ends at 12 s + 10 ns. -/
theorem pacing_three_cycles_not_8s :
    (publisherLoop 4 idleEnv defaultSendPeriod 3 3 zeroSample 0).2 = true ∧
      (publisherLoop 4 idleEnv defaultSendPeriod 3 3 zeroSample 0).1.now = 0 + 12000000000 ∧
      (publisherLoop 4 idleEnv defaultSendPeriod 3 3 zeroSample 0).1.now ≠ 0 + 8000000000 ∧
      (publisherLoop 4 idleEnv defaultSendPeriod 3 3 zeroSample 11).1.now =
        11 + 12000000000 - 1 := by
  refine ⟨idle_run_from_zero.1, idle_run_from_zero.2, ?_, idle_run_from_11ns⟩
  rw [idle_run_from_zero.2]
  decide

/-- C9 (amended): with `send_period = {4,0}`, `sample_count = 3` and a clock that only
`sleep` advances, the loop is left after three cycles, each of which ended with a call of
`sleep`, the last one included, and it ends with the clock at `time_begin + 12 s` up to the
rounding of the `double` arithmetic: within 3000 ns, for every `time_begin` with
`time_begin + 12 s` at most `2 ^ 31` seconds. -/
theorem pacing_three_cycles_ends_near_12s (M : Nat) (env : PubEnv) (sample0 : CameraImageData)
    (t0 : Nat) (hf : ∀ c, env.fillDur c = 0) (hw : ∀ c, env.writeDur c = 0)
    (ht0 : t0 + 12000000000 ≤ 2 ^ 31 * 1000000000) :
    (publisherLoop M env defaultSendPeriod 3 3 sample0 t0).2 = true ∧
      (publisherLoop M env defaultSendPeriod 3 3 sample0 t0).1.sleeps.length = 3 ∧
      |((publisherLoop M env defaultSendPeriod 3 3 sample0 t0).1.now : Int) -
        ((t0 : Int) + 12000000000)| ≤ 3000 := by
  rw [publisherLoop_eq M env defaultSendPeriod 3 3 sample0 t0 (by decide)]
  have hs : defaultSendPeriod.sec = 4 := rfl
  have hn : defaultSendPeriod.nanosec = 0 := rfl
  have h := cyclesFrom_within_period M env defaultSendPeriod sample0 t0 (by decide) (by decide)
    (by
      intro k
      rw [hf, hw, hs, hn]
      decide) 3 (by decide)
    (by
      rw [hs, hn]
      push_cast
      omega)
  rw [hs, hn] at h
  refine ⟨by simp, ?_, ?_⟩
  · simp only [cyclesFrom_sleeps_length]
  · simp only
    have e : (t0 : Int) + (4 * 1000000000 + ((0 : Nat) : Int)) * ((3 : Nat) : Int) =
        (t0 : Int) + 12000000000 := by
      push_cast
      ring
    rw [e] at h
    exact h

theorem pacing_three_cycles_ends_near_12s_witness :
    (publisherLoop 8 idleEnv defaultSendPeriod 3 3 zeroSample 1000).2 = true ∧
      (publisherLoop 8 idleEnv defaultSendPeriod 3 3 zeroSample 1000).1.sleeps.length = 3 ∧
      |((publisherLoop 8 idleEnv defaultSendPeriod 3 3 zeroSample 1000).1.now : Int) -
        (((1000 : Nat) : Int) + 12000000000)| ≤ 3000 :=
  pacing_three_cycles_ends_near_12s 8 idleEnv zeroSample 1000 (fun _ => rfl) (fun _ => rfl)
    (by decide)

/-- C11, as stated, fails: in a run begun at 1000 ns with the period of 4 s, whose cycles 0
and 1 end their work well before their deadlines, cycle 2 starts at 8 000 000 999 ns and
not at exactly `time_begin + 2 * send_period`, which is 8 000 001 000 ns.  When the work
ends only just before the deadline the start can be far off: in a run begun at
1 819 361 990 248 568 862 ns with a period of 1001 ms, whose first cycle ends its work 25 ns
before the deadline, `time_sleep_s` is negative, `sleep` is passed `{0, 4294967058}`, and
cycle 1 starts 4 294 967 033 ns after `time_begin + send_period`. -/
theorem busy_cycle_two_starts_early :
    (∀ k, k < 2 →
      (publisherLoop 8 busyEnv defaultSendPeriod 0 k zeroSample 1000).1.now +
        busyEnv.fillDur k + busyEnv.writeDur k < 1000 + 4000000000 * (k + 1)) ∧
      (publisherLoop 8 busyEnv defaultSendPeriod 0 2 zeroSample 1000).1.now = 8000000999 ∧
      (publisherLoop 8 busyEnv defaultSendPeriod 0 2 zeroSample 1000).1.now ≠
        1000 + 4000000000 * 2 ∧
      (publisherLoop 8 lateEnv { sec := 1, nanosec := 1000000 } 0 0 zeroSample
          1819361990248568862).1.now + lateEnv.fillDur 0 + lateEnv.writeDur 0 <
        1819361990248568862 + 1001000000 ∧
      Dbl.ltb (timeSleepS (timeToDouble (get_current_time 1819361990248568862))
        (durationToSeconds { sec := 1, nanosec := 1000000 }) 0
        (get_current_time (1819361990248568862 + 1000999975))) (Dbl.ofInt 0) = true ∧
      (publisherLoop 8 lateEnv { sec := 1, nanosec := 1000000 } 0 1 zeroSample
        1819361990248568862).1.sleeps = [{ sec := 0, nanosec := 4294967058 }] ∧
      (publisherLoop 8 lateEnv { sec := 1, nanosec := 1000000 } 0 1 zeroSample
        1819361990248568862).1.now = 1819361990248568862 + 1001000000 + 4294967033 := by
  refine ⟨?_, busy_run_starts.2.2, ?_, by decide, late_run_value, late_run_sleeps,
    late_run_now⟩
  · intro k hk
    have hf : busyEnv.fillDur k = 1000000000 * (k % 2) := rfl
    have hw : busyEnv.writeDur k = 1000000000 + 500000000 * (k % 3) := rfl
    rcases Nat.lt_or_ge k 1 with h0 | h1
    · have e : k = 0 := by omega
      subst e
      rw [busy_run_starts.1]
      decide
    · have e : k = 1 := by omega
      subst e
      rw [busy_run_starts.2.1]
      decide
  · rw [busy_run_starts.2.2]
    decide

/-- C11 (amended): in every cycle `k` the duration handed to `sleep` is computed from
`time_begin_s + send_period_s * (k + 1) - time_now_s`, with `time_begin_s` the one value
latched before the loop, in `double` arithmetic; hence, on the virtual clock, for a period
with non-negative seconds, fewer than `2 ^ 31` cycles and deadlines below `2 ^ 31` seconds,
if the work of every cycle `k < N` ends at least 3000 ns before
`time_begin + (k + 1) * send_period`, then each of these cycles passes non-negative seconds
to `sleep` and ends within 3000 ns of that deadline, and every cycle `k ≤ N` starts within
3000 ns of `time_begin + k * send_period`, whatever the work durations were: the error does
not grow with `k`. -/
theorem absolute_deadline_schedule (M : Nat) (env : PubEnv) (send_period : DDS_Duration_t)
    (sample_count : Int) (N : Nat) (sample0 : CameraImageData) (t0 : Nat)
    (hrun : sample_count = 0 ∨ (N : Int) ≤ sample_count)
    (hsec : 0 ≤ send_period.sec) (hns : send_period.nanosec < 2 ^ 32) (hN : N < 2 ^ 31)
    (hmax : (t0 : Int) +
      (send_period.sec * 1000000000 + (send_period.nanosec : Int)) * (N : Int) ≤
        2 ^ 31 * 1000000000)
    (hwork : ∀ k, k < N →
      (((publisherLoop M env send_period sample_count k sample0 t0).1.now +
          env.fillDur k + env.writeDur k : Nat) : Int) + 3000 ≤
        (t0 : Int) +
          (send_period.sec * 1000000000 + (send_period.nanosec : Int)) * ((k : Int) + 1)) :
    (∀ k, k < N → ∃ d,
      (publisherLoop M env send_period sample_count N sample0 t0).1.sleeps[k]? = some d ∧
      d = timeSleep (Dbl.sub
          (Dbl.add (timeToDouble (get_current_time t0))
            (Dbl.mul (durationToSeconds send_period) (Dbl.ofInt ((k : Int) + 1))))
          (timeToDouble (get_current_time
            ((publisherLoop M env send_period sample_count k sample0 t0).1.now +
              env.fillDur k + env.writeDur k)))) ∧
      0 ≤ d.sec ∧
      |(((publisherLoop M env send_period sample_count k sample0 t0).1.now +
          env.fillDur k + env.writeDur k + sleepAdvance d : Nat) : Int) -
        ((t0 : Int) +
          (send_period.sec * 1000000000 + (send_period.nanosec : Int)) * ((k : Int) + 1))| ≤
        3000) ∧
    ∀ k, k ≤ N →
      |((publisherLoop M env send_period sample_count k sample0 t0).1.now : Int) -
        ((t0 : Int) +
          (send_period.sec * 1000000000 + (send_period.nanosec : Int)) * (k : Int))| ≤ 3000 := by
  have hk : ∀ k, k ≤ N → sample_count = 0 ∨ (k : Int) ≤ sample_count := by
    intro k hkN
    rcases hrun with h | h
    · exact Or.inl h
    · right
      have : (k : Int) ≤ (N : Int) := by exact_mod_cast hkN
      omega
  have hP : 0 ≤ send_period.sec * 1000000000 + (send_period.nanosec : Int) :=
    Int.add_nonneg (Int.mul_nonneg hsec (by norm_num)) (Int.ofNat_nonneg _)
  have hmaxk : ∀ k, k ≤ N → (t0 : Int) +
      (send_period.sec * 1000000000 + (send_period.nanosec : Int)) * (k : Int) ≤
        2 ^ 31 * 1000000000 := by
    intro k hkN
    have : (send_period.sec * 1000000000 + (send_period.nanosec : Int)) * (k : Int) ≤
        (send_period.sec * 1000000000 + (send_period.nanosec : Int)) * (N : Int) :=
      mul_le_mul_of_nonneg_left (by exact_mod_cast hkN) hP
    omega
  constructor
  · intro k hkN
    have hw := hwork k hkN
    rw [publisherLoop_eq M env send_period sample_count N sample0 t0 hrun,
      publisherLoop_eq M env send_period sample_count k sample0 t0 (hk k (by omega))] at *
    have hD := hmaxk (k + 1) (by omega)
    push_cast at hD
    have hs := sleep_to_deadline send_period t0 _ k hsec hns (by omega) hD hw
    exact ⟨_, cyclesFrom_sleeps M env _ _ sample0 t0 N k hkN, rfl, hs.2.1, hs.2.2⟩
  · intro k hkN
    rw [publisherLoop_eq M env send_period sample_count k sample0 t0 (hk k hkN)]
    apply cyclesFrom_on_schedule M env send_period sample0 t0 k hsec hns (by omega)
      (hmaxk k hkN)
    intro j hj
    have := hwork j (by omega)
    rw [publisherLoop_eq M env send_period sample_count j sample0 t0 (hk j (by omega))] at this
    exact this

theorem absolute_deadline_schedule_witness :
    |((publisherLoop 8 busyEnv defaultSendPeriod 0 3 zeroSample 1000).1.now : Int) -
      (((1000 : Nat) : Int) +
        (defaultSendPeriod.sec * 1000000000 + (defaultSendPeriod.nanosec : Int)) *
          ((3 : Nat) : Int))| ≤ 3000 :=
  (absolute_deadline_schedule 8 busyEnv defaultSendPeriod 0 3 zeroSample 1000 (Or.inl rfl)
    (by decide) (by decide) (by decide) (by decide)
    (fun k hk => busyEnv_on_time 8 zeroSample 1000 k hk (by decide))).2 3 (le_refl 3)

/-- C12 (cycle count, failing writes tolerated): when the start-up succeeds, for every
`sample_count = n > 0` and every sequence of `write` return codes, `publisher_main` in the
default build leaves the main loop after exactly `n` cycles, in which it made exactly `n`
calls of `write` (their return codes are those of the environment, the nonzero ones are
reported) and `n` calls of `sleep`, and it returns the result of `publisher_shutdown`. -/
theorem exactly_n_cycles_then_shutdown (M : Nat) (setup : PubSetup) (env : PubEnv)
    (n fuel t0 : Nat) (created : CameraImageData) (hn : 0 < n) (hfuel : n ≤ fuel)
    (htopic : setup.topicName ≠ "") (hlib : setup.qosLibrary ≠ "")
    (hprof : setup.qosProfile ≠ "") (hreg : setup.registerTypeRet = 0)
    (hpart : setup.participantCreated = true) (hwr : setup.writerFound = true)
    (hcreate : setup.createData = some created) :
    ∃ st, publisher_main M setup env (n : Int) fuel t0 =
        (some (publisher_shutdown true setup.shutdown), some st) ∧
      st.written.length = n ∧
      st.written.map Prod.snd = (List.range n).map env.writeRet ∧
      st.errors = ((List.range n).map env.writeRet).filter (fun rc => decide (rc ≠ 0)) ∧
      st.sleeps.length = n ∧
      st.lfsr = lfsrStep^[n * wordsPerFrame M] LFSR_SEED ∧
      st.seqNum = (1 + n) % 2 ^ 32 := by
  have hloop : ∀ (send_period : DDS_Duration_t) (sample0 : CameraImageData),
      publisherLoop M env send_period (n : Int) fuel sample0 t0 =
        (cyclesFrom M env (timeToDouble (get_current_time t0))
          (durationToSeconds send_period) 0 (PubState.init sample0 t0) n, true) := by
    intro send_period sample0
    unfold publisherLoop
    have := mainLoop_finite M env (timeToDouble (get_current_time t0))
      (durationToSeconds send_period) n hn fuel 0 (PubState.init sample0 t0) (by omega)
      (by omega)
    simpa using this
  refine ⟨cyclesFrom M env (timeToDouble (get_current_time t0))
    (durationToSeconds (sendPeriodOf setup.pubInterval)) 0
    (PubState.init { created with id := ddsIdOf setup.ddsIdProp } t0) n, ?_,
    cyclesFrom_written_length _ _ _ _ _ _ _, cyclesFrom_retcodes _ _ _ _ _ _ _,
    cyclesFrom_errors _ _ _ _ _ _ _, cyclesFrom_sleeps_length _ _ _ _ _ _ _,
    cyclesFrom_lfsr _ _ _ _ _ _ _, cyclesFrom_seqNum _ _ _ _ _ _ _⟩
  unfold publisher_main
  simp only [htopic, hlib, hprof, hreg, hpart, hwr, hcreate, hloop, if_false, if_true,
    ne_eq, not_true_eq_false, Bool.true_eq_false]

theorem exactly_n_cycles_then_shutdown_witness :
    ∃ st, publisher_main 8 okSetup failingEnv ((3 : Nat) : Int) 5 0 =
        (some (publisher_shutdown true okSetup.shutdown), some st) ∧
      st.written.length = 3 ∧
      st.written.map Prod.snd = (List.range 3).map failingEnv.writeRet :=
  match exactly_n_cycles_then_shutdown 8 okSetup failingEnv 3 5 0 zeroSample (by decide)
      (by decide) (by decide) (by decide) (by decide) rfl rfl rfl rfl with
  | ⟨st, h1, h2, h3, _⟩ => ⟨st, h1, h2, h3⟩

/-- C13, as stated, fails: in the two-word buffer filled from `0x55555555`, replacing word 0
by `0` makes `checkLfsrDataInArray` return `false`, the mismatch being reported at word 1. -/
theorem word0_corruption_detected :
    checkLfsrDataInArray 8 (Function.update (fillLoop 8 0 LFSR_SEED (fun _ => 0)).1 0 0) = false ∧
      checkLfsrTrace 8 (Function.update (fillLoop 8 0 LFSR_SEED (fun _ => 0)).1 0 0) =
        CheckOutcome.mismatch 1 4205488811 0 := by
  have ht : checkLfsrTrace 8 (Function.update (fillLoop 8 0 LFSR_SEED (fun _ => 0)).1 0 0) =
      CheckOutcome.mismatch 1 4205488811 0 := by
    have h := checkLfsrTrace_mismatch 8
      (Function.update (fillLoop 8 0 LFSR_SEED (fun _ => 0)).1 0 0) 0 (by decide)
      (fun n hn => absurd hn (Nat.not_lt_zero n))
    rw [Function.update_same, Function.update_noteq (by decide : (0 + 1) ≠ 0),
      fill_word 8 LFSR_SEED (fun _ => 0) (0 + 1) (by decide)] at h
    exact h (by decide)
  refine ⟨?_, ht⟩
  unfold checkLfsrDataInArray
  rw [ht]

/-- C13 (amended): in a buffer produced by the fill loop from the 32-bit state `s`
(`MAX_IMAGE_SIZE = M` a positive multiple of 4), replacing word 0 by a 32-bit value `v` and
leaving the other words unchanged is accepted by `checkLfsrDataInArray` only when the frame
has a single word (`M = 4`) or `v = s`; for `M ≥ 8` and `v ≠ s` the check returns `false`,
reporting at word 1 the actual value `lfsrStep s` against the expected `lfsrStep v`. -/
theorem word0_replacement_checked (s v M : Nat) (data : Nat → Nat) (hs : s < 2 ^ 32)
    (hv : v < 2 ^ 32) (hM : 0 < M) (h4 : M % 4 = 0) :
    (checkLfsrDataInArray M (Function.update (fillLoop M 0 s data).1 0 v) = true ↔
      (M = 4 ∨ v = s)) ∧
    (8 ≤ M → v ≠ s →
      checkLfsrTrace M (Function.update (fillLoop M 0 s data).1 0 v) =
        CheckOutcome.mismatch 1 (lfsrStep s) (lfsrStep v)) := by
  have hbad : 8 ≤ M → v ≠ s →
      checkLfsrTrace M (Function.update (fillLoop M 0 s data).1 0 v) =
        CheckOutcome.mismatch 1 (lfsrStep s) (lfsrStep v) := by
    intro h8 hne
    have h := checkLfsrTrace_mismatch M (Function.update (fillLoop M 0 s data).1 0 v) 0
      (by omega) (fun n hn => absurd hn (Nat.not_lt_zero n))
    rw [Function.update_same, Function.update_noteq (by decide : (0 + 1) ≠ 0),
      fill_word M s data (0 + 1) (by omega)] at h
    exact h (fun heq => hne (lfsrStep_injective v s hv hs heq.symm))
  refine ⟨?_, hbad⟩
  constructor
  · intro htrue
    by_contra hcon
    have hne : v ≠ s := fun h => hcon (Or.inr h)
    have h8 : 8 ≤ M := by
      have : M ≠ 4 := fun h => hcon (Or.inl h)
      omega
    unfold checkLfsrDataInArray at htrue
    rw [hbad h8 hne] at htrue
    exact Bool.false_ne_true htrue
  · rintro (h | h)
    · subst h
      unfold checkLfsrDataInArray checkLfsrTrace
      rw [checkScan, if_neg (by decide)]
    · subst h
      have e : Function.update (fillLoop M 0 v data).1 0 v = (fillLoop M 0 v data).1 := by
        apply Function.update_eq_self_iff.mpr
        rw [fill_word M v data 0 (by omega)]
        rfl
      rw [e]
      unfold checkLfsrDataInArray
      rw [checkLfsrTrace_fill]

theorem word0_replacement_checked_witness :
    checkLfsrTrace 8 (Function.update (fillLoop 8 0 LFSR_SEED (fun _ => 0)).1 0 12345) =
      CheckOutcome.mismatch 1 (lfsrStep LFSR_SEED) (lfsrStep 12345) :=
  (word0_replacement_checked LFSR_SEED 12345 8 (fun _ => 0) (by decide) (by decide)
    (by decide) (by decide)).2 (by decide) (by decide)

/-- C14 (maximal length): on the nonzero 32-bit states the LFSR step with tap constant
`0xD0000001` has period exactly `2 ^ 32 - 1`: for every nonzero `x`, `2 ^ 32 - 1` steps lead
back to `x` and no smaller positive number of steps does; so the states reached from `x` in
fewer than `2 ^ 32 - 1` steps are pairwise distinct and are all the nonzero 32-bit values. -/
theorem lfsr_maximal_length (x : Nat) (hx0 : 0 < x) (hx : x < 2 ^ 32) :
    lfsrStep^[2 ^ 32 - 1] x = x ∧
      (∀ m, 0 < m → m < 2 ^ 32 - 1 → lfsrStep^[m] x ≠ x) ∧
      (∀ y, 0 < y → y < 2 ^ 32 → ∃ j, j < 2 ^ 32 - 1 ∧ lfsrStep^[j] x = y) ∧
      (∀ i j, i < 2 ^ 32 - 1 → j < 2 ^ 32 - 1 → lfsrStep^[i] x = lfsrStep^[j] x → i = j) := by
  have e : 2 ^ 32 - 1 = lfsrPeriod := by decide
  rw [e]
  have hmin := minimalPeriod_nonzero x hx0 hx
  refine ⟨lfsrStep_full_period x hx, ?_, orbit_covers x hx0 hx hmin, ?_⟩
  · intro m hm0 hm hfix
    have hper : Function.IsPeriodicPt lfsrStep m x := hfix
    have hdvd := hper.minimalPeriod_dvd
    rw [hmin] at hdvd
    have := Nat.le_of_dvd hm0 hdvd
    omega
  · intro i j hi hj hij
    have hinj : Set.InjOn (fun n => lfsrStep^[n] x) (Set.Iio lfsrPeriod) := by
      rw [← hmin]
      exact Function.iterate_injOn_Iio_minimalPeriod
    exact hinj hi hj hij

theorem lfsr_maximal_length_witness :
    lfsrStep^[2 ^ 32 - 1] LFSR_SEED = LFSR_SEED ∧
      (∀ m, 0 < m → m < 2 ^ 32 - 1 → lfsrStep^[m] LFSR_SEED ≠ LFSR_SEED) ∧
      (∀ y, 0 < y → y < 2 ^ 32 → ∃ j, j < 2 ^ 32 - 1 ∧ lfsrStep^[j] LFSR_SEED = y) ∧
      (∀ i j, i < 2 ^ 32 - 1 → j < 2 ^ 32 - 1 →
        lfsrStep^[i] LFSR_SEED = lfsrStep^[j] LFSR_SEED → i = j) :=
  lfsr_maximal_length LFSR_SEED (by decide) (by decide)

/-- C15, as stated, fails: the receive time stamps `(1700000000 s, 0 ns)` of a first call
and `(1700000000 s, 1 ns)` of a second call differ, the first has a nonzero value in seconds,
and yet the divisor `tReceive_s - tStart_s` of the second call is `0`, because both stamps
convert to the same `double`. -/
theorem receive_times_differ_divisor_zero :
    ({ sec := 1700000000, nanosec := 1 } : DDS_Time_t) ≠ { sec := 1700000000, nanosec := 0 } ∧
      (timeToDouble { sec := 1700000000, nanosec := 0 }).val ≠ 0 ∧
      (calcAndPrintTransitTimeIEEE 4
        (calcAndPrintTransitTimeIEEE 4 TransitStatsIEEE.init
          { sec := 1699999999, nanosec := 0 } { sec := 1700000000, nanosec := 0 }).1
        { sec := 1699999999, nanosec := 500000000 }
        { sec := 1700000000, nanosec := 1 }).2.bwDivisor.val = 0 := by
  refine ⟨by decide, epoch_stamp_nonzero, ?_⟩
  have h := calcIEEE_later_divisor 4 { sec := 1699999999, nanosec := 0 }
    { sec := 1700000000, nanosec := 0 } [] { sec := 1699999999, nanosec := 500000000 }
    { sec := 1700000000, nanosec := 1 } epoch_stamp_nonzero
  have h2 : (Dbl.sub (timeToDouble { sec := 1700000000, nanosec := 1 })
      (timeToDouble { sec := 1700000000, nanosec := 0 })).val = 0 := by
    rw [Dbl.sub_val_eq_zero_iff, epoch_stamps_same_double]
  rw [← h] at h2
  exact h2

/-- C15 (amended): on the first call of `calcAndPrintTransitTime`, with a receive time
stamp whose value in seconds (as a `double`) is nonzero, `tStart_s` is latched to
`tReceive_s` and the divisor `tReceive_s - tStart_s` of the bandwidth figure is exactly `0`
(the dividend being `MAX_IMAGE_SIZE` as a `uint32_t`); on any later call the divisor is the
`double` difference of that call's `tReceive_s` and the first one, hence nonzero exactly
when the two values `tReceive_s` differ as doubles. -/
theorem first_sample_divisor_zero (M : Nat) (tSend1 tReceive1 : DDS_Time_t)
    (mid : List (DDS_Time_t × DDS_Time_t)) (tSend tReceive : DDS_Time_t)
    (h1 : (timeToDouble tReceive1).val ≠ 0) :
    (calcAndPrintTransitTimeIEEE M TransitStatsIEEE.init tSend1 tReceive1).1.tStart_s =
        timeToDouble tReceive1 ∧
      (calcAndPrintTransitTimeIEEE M TransitStatsIEEE.init tSend1 tReceive1).2.bwDivisor.val =
        0 ∧
      (calcAndPrintTransitTimeIEEE M TransitStatsIEEE.init tSend1 tReceive1).2.bwBytes =
        M % 2 ^ 32 ∧
      (calcAndPrintTransitTimeIEEE M
          (calcAllIEEE M
            (calcAndPrintTransitTimeIEEE M TransitStatsIEEE.init tSend1 tReceive1).1 mid).1
          tSend tReceive).2.bwDivisor =
        Dbl.sub (timeToDouble tReceive) (timeToDouble tReceive1) ∧
      ((calcAndPrintTransitTimeIEEE M
          (calcAllIEEE M
            (calcAndPrintTransitTimeIEEE M TransitStatsIEEE.init tSend1 tReceive1).1 mid).1
          tSend tReceive).2.bwDivisor.val ≠ 0 ↔
        (timeToDouble tReceive).val ≠ (timeToDouble tReceive1).val) := by
  have hlater := calcIEEE_later_divisor M tSend1 tReceive1 mid tSend tReceive h1
  refine ⟨calcIEEE_first_tStart M tSend1 tReceive1, ?_, ?_, hlater, ?_⟩
  · rw [calcIEEE_first_divisor, Dbl.sub_val_eq_zero_iff]
  · simp [calcAndPrintTransitTimeIEEE, TransitStatsIEEE.init]
  · rw [hlater, Ne, Dbl.sub_val_eq_zero_iff]

theorem first_sample_divisor_zero_witness :
    (timeToDouble { sec := 100, nanosec := 500000000 }).val ≠ 0 ∧
      (calcAndPrintTransitTimeIEEE 4 TransitStatsIEEE.init { sec := 100, nanosec := 0 }
        { sec := 100, nanosec := 500000000 }).2.bwDivisor.val = 0 :=
  ⟨small_stamp_nonzero,
    (first_sample_divisor_zero 4 { sec := 100, nanosec := 0 }
      { sec := 100, nanosec := 500000000 } [] { sec := 200, nanosec := 0 }
      { sec := 200, nanosec := 300000000 } small_stamp_nonzero).2.1⟩

end CameraImage
